import Mathlib

/-!
The HTTP helper functions of `cmd/api/helpers.go`

A shallow embedding of `writeJSON`, `readJSON` and `readIDParam` together with
the parts of the Go standard library whose behaviour they observe
(`strconv.ParseInt`, `errors.As` / `errors.Is`, `http.MaxBytesReader`, the
`encoding/json` scanner and `Decoder`).  Go strings and streams are byte
sequences; a byte is a natural number below 256.  Error messages are texts.

Two parts of the library are parameters of the embedding: the store of a
scanned JSON value into a Go value by reflection (`Codec`), and
`json.MarshalIndent`.  What `readJSON` does with a body up to the store, and
with the error of the store, is defined here: the size limit, the scan of
the first value, the classification of the failure, the second `Decode`.
The scanner and the decoder are those of the classic `encoding/json`
(scanner.go, stream.go).  An `http.ResponseWriter` is a writer that records
what it is given and checks the status as `WriteHeader` does.
-/

namespace Helpers

/-- The bytes (UTF-8) of a string literal. -/
def utf8 (s : String) : List Nat :=
  s.toList.flatMap fun c => (String.utf8EncodeChar c).map UInt8.toNat

/-! ## strconv.ParseInt -/

/-- The two sentinel errors of `strconv`. -/
inductive NumErrKind where
  | ErrSyntax
  | ErrRange
  deriving DecidableEq, Repr

/-- The type `strconv.NumError`. -/
structure NumError where
  Func : String
  Num : List Nat
  Err : NumErrKind
  deriving DecidableEq, Repr

def maxUint64 : Nat := 2 ^ 64 - 1

/-- The function `lower(c)` of strconv: `c | ('x' - 'X')`. -/
def lower (c : Nat) : Nat := c ||| 0x20

/-- The digit loop of `strconv.ParseUint` for base 10 and bit size 64
(`cutoff = maxUint64/10 + 1`, `maxVal = 1<<64 - 1`, no underscores since the
base is not 0); `n` is the accumulator, a `uint64`. -/
def parseUintLoop (s0 : List Nat) : List Nat → Nat → Nat × Option NumError
  | [], n => (n, none)
  | c :: cs, n =>
    if 48 ≤ c ∧ c ≤ 57 then
      let d := c - 48
      if n ≥ maxUint64 / 10 + 1 then
        -- n*base overflows
        (maxUint64, some ⟨"ParseUint", s0, .ErrRange⟩)
      else
        let n := (n * 10) % 2 ^ 64
        let n1 := (n + d) % 2 ^ 64
        if n1 < n ∨ n1 > maxUint64 then
          -- n+d overflows
          (maxUint64, some ⟨"ParseUint", s0, .ErrRange⟩)
        else parseUintLoop s0 cs n1
    else if 97 ≤ lower c ∧ lower c ≤ 122 then
      -- a letter: its digit value is at least 10, not below the base
      (0, some ⟨"ParseUint", s0, .ErrSyntax⟩)
    else
      (0, some ⟨"ParseUint", s0, .ErrSyntax⟩)

/-- The call `strconv.ParseUint(s, 10, 64)`. -/
def ParseUint (s : List Nat) : Nat × Option NumError :=
  if s = [] then (0, some ⟨"ParseUint", s, .ErrSyntax⟩)
  else parseUintLoop s s 0

/-- The call `strconv.ParseInt(s, 10, 64)`, the only base and bit size used here. -/
def ParseInt (s : List Nat) : Int × Option NumError :=
  match s with
  | [] => (0, some ⟨"ParseInt", s, .ErrSyntax⟩)
  | c :: rest =>
    -- Pick off leading sign.
    let neg := c = 45
    let s1 := if c = 43 then rest else if c = 45 then rest else s
    -- Convert unsigned and check range.
    match ParseUint s1 with
    | (un, err) =>
      if err.isSome ∧ (err.map NumError.Err) ≠ some .ErrRange then
        (0, some ⟨"ParseInt", s, .ErrSyntax⟩)
      else
        let cutoff : Nat := 2 ^ 63
        if ¬ neg ∧ un ≥ cutoff then
          (Int.ofNat (cutoff - 1), some ⟨"ParseInt", s, .ErrRange⟩)
        else if neg ∧ un > cutoff then
          (- Int.ofNat cutoff, some ⟨"ParseInt", s, .ErrRange⟩)
        else
          -- n := int64(un); if neg then n = -n
          let n : Int := Int.ofNat un
          (if neg then -n else n, none)

/-! ## Go error values -/

/-- What `reflect.TypeOf(v)` is for a destination that `Unmarshal` refuses. -/
inductive BadDestination where
  /-- An untyped nil: `Unmarshal(nil)`. -/
  | nilValue
  /-- A value that is not a pointer, of the named type. -/
  | nonPointer (typ : String)
  /-- A nil pointer of the named pointer type. -/
  | nilPointer (typ : String)
  deriving DecidableEq, Repr

/-- Go error values, as far as `errors.As`, `errors.Is` and `Error()` can tell
them apart. -/
inductive GoError where
  /-- A `*json.SyntaxError`. -/
  | syntaxError (msg : String) (Offset : Int)
  /-- A `*json.UnmarshalTypeError`. -/
  | unmarshalTypeError (Value : String) (Typ : String) (Offset : Int)
      (Struct : String) (Field : String)
  /-- A `*json.InvalidUnmarshalError`. -/
  | invalidUnmarshalError (Typ : BadDestination)
  /-- A `*http.MaxBytesError`. -/
  | maxBytesError (Limit : Int)
  /-- The sentinel `io.ErrUnexpectedEOF`. -/
  | ErrUnexpectedEOF
  /-- The sentinel `io.EOF`. -/
  | EOF
  /-- The result of `errors.New(msg)`, or of `fmt.Errorf` without `%w`. -/
  | errorString (msg : String)
  /-- An error with message `msg` whose `Unwrap()` is `inner`. -/
  | wrapError (msg : String) (inner : GoError)
  deriving DecidableEq, Repr

namespace GoError

/-- The method `Error()`. -/
def Error : GoError → String
  | syntaxError msg _ => msg
  | unmarshalTypeError v t _ s f =>
    if s ≠ "" ∨ f ≠ "" then
      "json: cannot unmarshal " ++ v ++ " into Go struct field " ++ s ++ "." ++ f
        ++ " of type " ++ t
    else "json: cannot unmarshal " ++ v ++ " into Go value of type " ++ t
  | invalidUnmarshalError .nilValue => "json: Unmarshal(nil)"
  | invalidUnmarshalError (.nonPointer t) => "json: Unmarshal(non-pointer " ++ t ++ ")"
  | invalidUnmarshalError (.nilPointer t) => "json: Unmarshal(nil " ++ t ++ ")"
  | maxBytesError _ => "http: request body too large"
  | ErrUnexpectedEOF => "unexpected EOF"
  | EOF => "EOF"
  | errorString msg => msg
  | wrapError msg _ => msg

end GoError

/-- The call `errors.Is(err, target)` for a sentinel `target`: some error of the
`Unwrap` chain of `err` is `target`. -/
def errorsIs : GoError → GoError → Bool
  | .wrapError msg inner, target =>
    decide (GoError.wrapError msg inner = target) || errorsIs inner target
  | err, target => decide (err = target)

/-- The function `errors.Is` on an error that may be nil. -/
def errorsIsNilable (err : Option GoError) (target : GoError) : Bool :=
  match err with
  | none => false
  | some e => errorsIs e target

/-- The call `errors.As(err, &syntaxError)`: the first `*json.SyntaxError` of the chain,
given by its message and `Offset`. -/
def asSyntaxError : GoError → Option (String × Int)
  | .syntaxError msg off => some (msg, off)
  | .wrapError _ inner => asSyntaxError inner
  | _ => none

/-- The call `errors.As(err, &unmarshalTypeError)`: the first `*json.UnmarshalTypeError`
of the chain, given by its `Field` and `Offset`. -/
def asUnmarshalTypeError : GoError → Option (String × Int)
  | .unmarshalTypeError _ _ off _ field => some (field, off)
  | .wrapError _ inner => asUnmarshalTypeError inner
  | _ => none

/-- The call `errors.As(err, &maxBytesError)`: the `Limit` of the first
`*http.MaxBytesError` of the chain. -/
def asMaxBytesError : GoError → Option Int
  | .maxBytesError limit => some limit
  | .wrapError _ inner => asMaxBytesError inner
  | _ => none

/-- The call `errors.As(err, &invalidUnmarshalError)`. -/
def asInvalidUnmarshalError : GoError → Bool
  | .invalidUnmarshalError _ => true
  | .wrapError _ inner => asInvalidUnmarshalError inner
  | _ => false

/-- The function `strings.HasPrefix(s, p)`. -/
def HasPrefix (s p : String) : Bool := p.data.isPrefixOf s.data

/-- The function `strings.TrimPrefix(s, p)`. -/
def TrimPrefix (s p : String) : String :=
  if HasPrefix s p then ⟨s.data.drop p.data.length⟩ else s

/-- The verb `%d` of `fmt` on an integer. -/
def fmtD (n : Int) : String := toString n

/-! ## strconv.Quote and the scanner's quoteChar -/

/-- The digit `lowerhex[n]`. -/
def lowerhex (n : Nat) : Char := "0123456789abcdef".data.getD n '0'

/-- The function `strconv.IsPrint(r)`: Latin-1 is decided on the spot, the other runes by
the tables of `strconv`, which are the parameter `table`. -/
def IsPrint (table : Nat → Bool) (r : Nat) : Bool :=
  if r ≤ 0xFF then
    if 0x20 ≤ r ∧ r ≤ 0x7E then true
    else if 0xA1 ≤ r ∧ r ≤ 0xFF then r ≠ 0xAD
    else false
  else table r

/-- The call `appendEscapedRune(buf, r, '"', false, false)` of strconv: how one rune is
written inside a double-quoted Go string. -/
def escapedRune (table : Nat → Bool) (r : Char) : String :=
  if r = '"' ∨ r = '\\' then "\\" ++ r.toString
  else if IsPrint table r.toNat then r.toString
  else if r.toNat = 7 then "\\a"
  else if r.toNat = 8 then "\\b"
  else if r.toNat = 12 then "\\f"
  else if r.toNat = 10 then "\\n"
  else if r.toNat = 13 then "\\r"
  else if r.toNat = 9 then "\\t"
  else if r.toNat = 11 then "\\v"
  else if r.toNat < 0x20 ∨ r.toNat = 0x7F then
    "\\x" ++ String.mk [lowerhex (r.toNat / 16), lowerhex (r.toNat % 16)]
  else if r.toNat < 0x10000 then
    "\\u" ++ String.mk [lowerhex (r.toNat / 4096 % 16), lowerhex (r.toNat / 256 % 16),
      lowerhex (r.toNat / 16 % 16), lowerhex (r.toNat % 16)]
  else
    "\\U" ++ String.mk [lowerhex (r.toNat / 268435456 % 16), lowerhex (r.toNat / 16777216 % 16),
      lowerhex (r.toNat / 1048576 % 16), lowerhex (r.toNat / 65536 % 16),
      lowerhex (r.toNat / 4096 % 16), lowerhex (r.toNat / 256 % 16),
      lowerhex (r.toNat / 16 % 16), lowerhex (r.toNat % 16)]

/-- The function `strconv.Quote(s)`, the verb `%q` of `fmt` on a string (of valid UTF-8). -/
def Quote (table : Nat → Bool) (s : String) : String :=
  "\"" ++ String.join (s.data.map (escapedRune table)) ++ "\""

/-- The function `quoteChar(c)` of the scanner: the byte `c` in single quotes. -/
def quoteChar (c : Nat) : String :=
  -- special cases - different from quoted strings
  if c = 39 then "'\\''"
  else if c = 34 then "'\"'"
  else
    -- use quoted string with different quotation marks
    "'" ++ escapedRune (fun _ => false) (Char.ofNat c) ++ "'"

/-! ## The scanner of encoding/json (scanner.go) -/

/-- The values a step function returns. -/
inductive ScanCode where
  | scanContinue
  | scanBeginLiteral
  | scanBeginObject
  | scanObjectKey
  | scanObjectValue
  | scanEndObject
  | scanBeginArray
  | scanArrayValue
  | scanEndArray
  | scanSkipSpace
  | scanEnd
  | scanError
  deriving DecidableEq, Repr

/-- The entries of the parse stack. -/
inductive ParseState where
  | parseObjectKey
  | parseObjectValue
  | parseArrayValue
  deriving DecidableEq, Repr

/-- The step functions a scanner can be in (the field `step` is a function
value in Go). -/
inductive StepFn where
  | stateBeginValueOrEmpty
  | stateBeginValue
  | stateBeginStringOrEmpty
  | stateBeginString
  | stateEndValue
  | stateEndTop
  | stateInString
  | stateInStringEsc
  | stateInStringEscU
  | stateInStringEscU1
  | stateInStringEscU12
  | stateInStringEscU123
  | stateNeg
  | state1
  | state0
  | stateDot
  | stateDot0
  | stateE
  | stateESign
  | stateE0
  | stateT
  | stateTr
  | stateTru
  | stateF
  | stateFa
  | stateFal
  | stateFals
  | stateN
  | stateNu
  | stateNul
  | stateError
  deriving DecidableEq, Repr

/-- The type `scanner`.  The parse stack has its top at the head of the list
(Go appends at the end of a slice). -/
structure Scanner where
  step : StepFn
  endTop : Bool
  parseState : List ParseState
  err : Option GoError
  bytes : Int
  deriving DecidableEq, Repr

def maxNestingDepth : Nat := 10000

namespace Scanner

/-- The method `s.reset()`; the byte count is kept. -/
def reset (s : Scanner) : Scanner :=
  { s with step := .stateBeginValue, parseState := [], err := none, endTop := false }

/-- The method `s.error(c, context)`. -/
def error (s : Scanner) (c : Nat) (context : String) : Scanner × ScanCode :=
  ({ s with step := .stateError,
            err := some (.syntaxError ("invalid character " ++ quoteChar c ++ " " ++ context)
              s.bytes) },
   .scanError)

/-- The method `s.pushParseState(c, newParseState, successState)`. -/
def pushParseState (s : Scanner) (c : Nat) (newParseState : ParseState)
    (successState : ScanCode) : Scanner × ScanCode :=
  let s := { s with parseState := newParseState :: s.parseState }
  if s.parseState.length ≤ maxNestingDepth then (s, successState)
  else s.error c "exceeded max depth"

/-- The method `s.popParseState()`. -/
def popParseState (s : Scanner) : Scanner :=
  let s := { s with parseState := s.parseState.tail }
  if s.parseState.length = 0 then { s with step := .stateEndTop, endTop := true }
  else { s with step := .stateEndValue }

end Scanner

def isSpace (c : Nat) : Bool :=
  c ≤ 32 && (c = 32 || c = 9 || c = 13 || c = 10)

def isDigit (c : Nat) : Bool := 48 ≤ c && c ≤ 57

def isHex (c : Nat) : Bool :=
  (48 ≤ c && c ≤ 57) || (97 ≤ c && c ≤ 102) || (65 ≤ c && c ≤ 70)

/-- The state after reading a top-level value: only spaces may follow. -/
def stateEndTop (s : Scanner) (c : Nat) : Scanner × ScanCode :=
  if ¬ isSpace c then
    -- Complain about non-space byte on next call.
    ((s.error c "after top-level value").1, .scanEnd)
  else (s, .scanEnd)

/-- The state after completing a value, such as after reading `{}` or `true`. -/
def stateEndValue (s : Scanner) (c : Nat) : Scanner × ScanCode :=
  match s.parseState with
  | [] =>
    -- Completed top-level before the current byte.
    stateEndTop { s with step := .stateEndTop, endTop := true } c
  | ps :: rest =>
    if isSpace c then ({ s with step := .stateEndValue }, .scanSkipSpace)
    else
      match ps with
      | .parseObjectKey =>
        if c = 58 then
          ({ s with parseState := .parseObjectValue :: rest, step := .stateBeginValue },
           .scanObjectKey)
        else s.error c "after object key"
      | .parseObjectValue =>
        if c = 44 then
          ({ s with parseState := .parseObjectKey :: rest, step := .stateBeginString },
           .scanObjectValue)
        else if c = 125 then (s.popParseState, .scanEndObject)
        else s.error c "after object key:value pair"
      | .parseArrayValue =>
        if c = 44 then ({ s with step := .stateBeginValue }, .scanArrayValue)
        else if c = 93 then (s.popParseState, .scanEndArray)
        else s.error c "after array element"

/-- The state at the beginning of the input or of a value. -/
def stateBeginValue (s : Scanner) (c : Nat) : Scanner × ScanCode :=
  if isSpace c then (s, .scanSkipSpace)
  else
    match c with
    | 123 =>
      { s with step := .stateBeginStringOrEmpty }.pushParseState c .parseObjectKey .scanBeginObject
    | 91 =>
      { s with step := .stateBeginValueOrEmpty }.pushParseState c .parseArrayValue .scanBeginArray
    | 34 => ({ s with step := .stateInString }, .scanBeginLiteral)
    | 45 => ({ s with step := .stateNeg }, .scanBeginLiteral)
    | 48 => ({ s with step := .state0 }, .scanBeginLiteral) -- beginning of 0.123
    | 116 => ({ s with step := .stateT }, .scanBeginLiteral) -- beginning of true
    | 102 => ({ s with step := .stateF }, .scanBeginLiteral) -- beginning of false
    | 110 => ({ s with step := .stateN }, .scanBeginLiteral) -- beginning of null
    | _ =>
      if 49 ≤ c ∧ c ≤ 57 then ({ s with step := .state1 }, .scanBeginLiteral) -- beginning of 1234.5
      else s.error c "looking for beginning of value"

/-- The state after reading `[`. -/
def stateBeginValueOrEmpty (s : Scanner) (c : Nat) : Scanner × ScanCode :=
  if isSpace c then (s, .scanSkipSpace)
  else if c = 93 then stateEndValue s c
  else stateBeginValue s c

/-- The state after reading `{"key": value,`. -/
def stateBeginString (s : Scanner) (c : Nat) : Scanner × ScanCode :=
  if isSpace c then (s, .scanSkipSpace)
  else if c = 34 then ({ s with step := .stateInString }, .scanBeginLiteral)
  else s.error c "looking for beginning of object key string"

/-- The state after reading `{`. -/
def stateBeginStringOrEmpty (s : Scanner) (c : Nat) : Scanner × ScanCode :=
  if isSpace c then (s, .scanSkipSpace)
  else if c = 125 then
    stateEndValue { s with parseState := .parseObjectValue :: s.parseState.tail } c
  else stateBeginString s c

/-- The state after reading `"`. -/
def stateInString (s : Scanner) (c : Nat) : Scanner × ScanCode :=
  if c = 34 then ({ s with step := .stateEndValue }, .scanContinue)
  else if c = 92 then ({ s with step := .stateInStringEsc }, .scanContinue)
  else if c < 0x20 then s.error c "in string literal"
  else (s, .scanContinue)

/-- The state after reading `"\` during a quoted string. -/
def stateInStringEsc (s : Scanner) (c : Nat) : Scanner × ScanCode :=
  if c = 98 ∨ c = 102 ∨ c = 110 ∨ c = 114 ∨ c = 116 ∨ c = 92 ∨ c = 47 ∨ c = 34 then
    ({ s with step := .stateInString }, .scanContinue)
  else if c = 117 then ({ s with step := .stateInStringEscU }, .scanContinue)
  else s.error c "in string escape code"

/-- The four states after reading `"\u`, `"\u1`, `"\u12`, `"\u123`: a
hexadecimal digit leads to `next`. -/
def stateInStringEscHex (next : StepFn) (s : Scanner) (c : Nat) : Scanner × ScanCode :=
  if isHex c then ({ s with step := next }, .scanContinue)
  else s.error c "in \\u hexadecimal character escape"

/-- The state after reading `0` during a number. -/
def state0 (s : Scanner) (c : Nat) : Scanner × ScanCode :=
  if c = 46 then ({ s with step := .stateDot }, .scanContinue)
  else if c = 101 ∨ c = 69 then ({ s with step := .stateE }, .scanContinue)
  else stateEndValue s c

/-- The state after reading a non-zero integer during a number. -/
def state1 (s : Scanner) (c : Nat) : Scanner × ScanCode :=
  if isDigit c then ({ s with step := .state1 }, .scanContinue)
  else state0 s c

/-- The state after reading `-` during a number. -/
def stateNeg (s : Scanner) (c : Nat) : Scanner × ScanCode :=
  if c = 48 then ({ s with step := .state0 }, .scanContinue)
  else if 49 ≤ c ∧ c ≤ 57 then ({ s with step := .state1 }, .scanContinue)
  else s.error c "in numeric literal"

/-- The state after reading the integer and decimal point in a number. -/
def stateDot (s : Scanner) (c : Nat) : Scanner × ScanCode :=
  if isDigit c then ({ s with step := .stateDot0 }, .scanContinue)
  else s.error c "after decimal point in numeric literal"

/-- The state after reading the integer, decimal point and digits. -/
def stateDot0 (s : Scanner) (c : Nat) : Scanner × ScanCode :=
  if isDigit c then (s, .scanContinue)
  else if c = 101 ∨ c = 69 then ({ s with step := .stateE }, .scanContinue)
  else stateEndValue s c

/-- The state after reading the mantissa, `e` and a sign. -/
def stateESign (s : Scanner) (c : Nat) : Scanner × ScanCode :=
  if isDigit c then ({ s with step := .stateE0 }, .scanContinue)
  else s.error c "in exponent of numeric literal"

/-- The state after reading the mantissa and `e`. -/
def stateE (s : Scanner) (c : Nat) : Scanner × ScanCode :=
  if c = 43 ∨ c = 45 then ({ s with step := .stateESign }, .scanContinue)
  else stateESign s c

/-- The state after reading the mantissa, `e`, an optional sign and a digit. -/
def stateE0 (s : Scanner) (c : Nat) : Scanner × ScanCode :=
  if isDigit c then (s, .scanContinue)
  else stateEndValue s c

/-- The states inside the literals `true`, `false` and `null`: the byte
`expected` leads to `next`. -/
def stateLiteral (expected : Nat) (next : StepFn) (context : String)
    (s : Scanner) (c : Nat) : Scanner × ScanCode :=
  if c = expected then ({ s with step := next }, .scanContinue)
  else s.error c context

/-- The call `s.step(s, c)`. -/
def Scanner.stepByte (s : Scanner) (c : Nat) : Scanner × ScanCode :=
  match s.step with
  | .stateBeginValueOrEmpty => stateBeginValueOrEmpty s c
  | .stateBeginValue => stateBeginValue s c
  | .stateBeginStringOrEmpty => stateBeginStringOrEmpty s c
  | .stateBeginString => stateBeginString s c
  | .stateEndValue => stateEndValue s c
  | .stateEndTop => stateEndTop s c
  | .stateInString => stateInString s c
  | .stateInStringEsc => stateInStringEsc s c
  | .stateInStringEscU => stateInStringEscHex .stateInStringEscU1 s c
  | .stateInStringEscU1 => stateInStringEscHex .stateInStringEscU12 s c
  | .stateInStringEscU12 => stateInStringEscHex .stateInStringEscU123 s c
  | .stateInStringEscU123 => stateInStringEscHex .stateInString s c
  | .stateNeg => stateNeg s c
  | .state1 => state1 s c
  | .state0 => state0 s c
  | .stateDot => stateDot s c
  | .stateDot0 => stateDot0 s c
  | .stateE => stateE s c
  | .stateESign => stateESign s c
  | .stateE0 => stateE0 s c
  | .stateT => stateLiteral 114 .stateTr "in literal true (expecting 'r')" s c
  | .stateTr => stateLiteral 117 .stateTru "in literal true (expecting 'u')" s c
  | .stateTru => stateLiteral 101 .stateEndValue "in literal true (expecting 'e')" s c
  | .stateF => stateLiteral 97 .stateFa "in literal false (expecting 'a')" s c
  | .stateFa => stateLiteral 108 .stateFal "in literal false (expecting 'l')" s c
  | .stateFal => stateLiteral 115 .stateFals "in literal false (expecting 's')" s c
  | .stateFals => stateLiteral 101 .stateEndValue "in literal false (expecting 'e')" s c
  | .stateN => stateLiteral 117 .stateNu "in literal null (expecting 'u')" s c
  | .stateNu => stateLiteral 108 .stateNul "in literal null (expecting 'l')" s c
  | .stateNul => stateLiteral 108 .stateEndValue "in literal null (expecting 'l')" s c
  | .stateError => (s, .scanError)

/-! ## http.MaxBytesReader and json.Decoder (stream.go) -/

/-- A request body as a reader: the bytes it delivers, in order, and the
error it reports from then on (`io.EOF` for a body read to its end).  How
the bytes are split over the calls of `Read` is not observed by the decoder,
which scans what it has before it looks at the error of a read. -/
structure Reader where
  data : List Nat
  final : GoError
  deriving DecidableEq, Repr

/-- The body of a request: all its bytes, then `io.EOF`. -/
def requestBody (body : List Nat) : Reader := ⟨body, .EOF⟩

/-- The reader `http.MaxBytesReader(w, r, n)`: the first `n` bytes of `r` pass; if `r`
has more than `n` bytes, the read that would pass byte `n+1` reports
`*http.MaxBytesError` with `Limit` `n`, and so does every later read. -/
def MaxBytesReader (r : Reader) (n : Int) : Reader :=
  if r.data.length ≤ n.toNat then r
  else ⟨r.data.take n.toNat, .maxBytesError n⟩

/-- The type `json.Decoder`: `input` is what is buffered and not yet consumed
followed by what the reader has still to deliver, `final` the error of the
reader after that, `err` the field `dec.err`, `scan` the field `dec.scan`. The
token state is left out: it stays `tokenTopValue` when only `Decode` is
called. -/
structure Decoder where
  input : List Nat
  final : GoError
  err : Option GoError
  scan : Scanner
  disallowUnknownFields : Bool
  deriving DecidableEq, Repr

/-- The function `json.NewDecoder(r)`. -/
def NewDecoder (r : Reader) : Decoder :=
  { input := r.data, final := r.final, err := none,
    scan := ⟨.stateBeginValue, false, [], none, 0⟩, disallowUnknownFields := false }

/-- The method `dec.DisallowUnknownFields()`. -/
def Decoder.DisallowUnknownFields (dec : Decoder) : Decoder :=
  { dec with disallowUnknownFields := true }

/-- How the scan of the buffered and incoming bytes of `readValue` ends. -/
inductive ScanResult where
  /-- A value ends after `n` bytes (`break Input`). -/
  | value (n : Nat) (s : Scanner)
  /-- A step returned `scanError`. -/
  | failed (s : Scanner)
  /-- All bytes were scanned and the value is not complete. -/
  | exhausted (s : Scanner)
  deriving DecidableEq, Repr

/-- The inner loop of `readValue` over the bytes still to come; `n` counts the
bytes scanned so far (`scanp - dec.scanp`). -/
def scanBuffer (s : Scanner) : List Nat → Nat → ScanResult
  | [], _ => .exhausted s
  | c :: cs, n =>
    match ({ s with bytes := s.bytes + 1 } : Scanner).stepByte c with
    | (s1, .scanEnd) =>
      -- scanEnd is delayed one byte so we decrement the scanner bytes count
      .value n { s1 with bytes := s1.bytes - 1 }
    | (s1, .scanEndObject) =>
      -- scanEnd is delayed one byte: invent a space byte
      match stateEndValue s1 32 with
      | (s2, .scanEnd) => .value (n + 1) s2
      | (s2, _) => scanBuffer s2 cs (n + 1)
    | (s1, .scanEndArray) =>
      match stateEndValue s1 32 with
      | (s2, .scanEnd) => .value (n + 1) s2
      | (s2, _) => scanBuffer s2 cs (n + 1)
    | (s1, .scanError) => .failed s1
    | (s1, _) => scanBuffer s1 cs (n + 1)

/-- The function `nonSpace(b)`. -/
def nonSpace (b : List Nat) : Bool := b.any fun c => ! isSpace c

/-- The method `dec.readValue()`: the number of bytes of the next value and the error. -/
def Decoder.readValue (dec : Decoder) : Decoder × Nat × Option GoError :=
  match scanBuffer dec.scan.reset dec.input 0 with
  | .value n s => ({ dec with scan := s }, n, none)
  | .failed s => ({ dec with scan := s, err := s.err }, 0, s.err)
  | .exhausted s =>
    -- Did the last read have an error? Delayed until now to allow buffer scan.
    if dec.final = .EOF then
      match s.stepByte 32 with
      | (s1, .scanEnd) => ({ dec with scan := s1 }, dec.input.length, none)
      | (s1, _) =>
        let err := if nonSpace dec.input then GoError.ErrUnexpectedEOF else GoError.EOF
        ({ dec with scan := s1, err := some err }, 0, some err)
    else ({ dec with scan := s, err := some dec.final }, 0, some dec.final)

/-- A destination handed to `Decode`: a non-nil pointer to a value of the
record type `D`, the pointer `&struct{}{}`, or something `Unmarshal` refuses. -/
inductive Destination (D : Type) where
  | pointer (v : D)
  | emptyStruct
  | invalid (t : BadDestination)
  deriving DecidableEq, Repr

/-- The part of `encoding/json` that stores a scanned value into a Go value by
reflection (`decodeState.value` with its saved error), which is not part of
this development.  `store disallowUnknownFields data v` is the record after
the bytes `data` of one value are stored into the record `v`, and the error
of `unmarshal`; `storeEmptyStruct` is the same for a destination of type
`struct{}`, which has no state. -/
structure Codec (D : Type) where
  store : Bool → List Nat → D → D × Option GoError
  storeEmptyStruct : Bool → List Nat → Option GoError

/-- The method `d.unmarshal(v)` on the bytes `data` of one scanned value. -/
def unmarshal {D : Type} (codec : Codec D) (disallowUnknownFields : Bool) (data : List Nat) :
    Destination D → Destination D × Option GoError
  | .invalid t => (.invalid t, some (.invalidUnmarshalError t))
  | .emptyStruct => (.emptyStruct, codec.storeEmptyStruct disallowUnknownFields data)
  | .pointer v =>
    match codec.store disallowUnknownFields data v with
    | (v1, err) => (.pointer v1, err)

/-- The method `dec.Decode(v)`: the decoder and the destination afterwards, and the error. -/
def Decoder.Decode {D : Type} (codec : Codec D) (dec : Decoder) (v : Destination D) :
    Decoder × Destination D × Option GoError :=
  match dec.err with
  | some e => (dec, v, some e)
  | none =>
    -- Read whole value into buffer.
    match dec.readValue with
    | (dec1, _, some err) => (dec1, v, some err)
    | (dec1, n, none) =>
      -- Don't save err from unmarshal into dec.err
      match unmarshal codec dec1.disallowUnknownFields (dec1.input.take n) v with
      | (v1, err) => ({ dec1 with input := dec1.input.drop n }, v1, err)

/-! ## cmd/api/helpers.go -/

/-- How a call of a Go function ends: it returns its error result (`none` is
`nil`), or it panics with a value. -/
inductive Outcome where
  | returned (err : Option GoError)
  | panicked (v : GoError)
  deriving DecidableEq, Repr

/-- The method `readJSON`, on the bytes `body` of `r.Body`.  The result is the
destination after the call and how the call ended.  `table` is the table of
printable runes behind the verb `%q`. -/
def readJSON {D : Type} (codec : Codec D) (table : Nat → Bool) (body : List Nat)
    (destination : Destination D) : Destination D × Outcome :=
  let maxBytes : Int := 250
  let rBody := MaxBytesReader (requestBody body) maxBytes
  let dec := (NewDecoder rBody).DisallowUnknownFields
  match dec.Decode codec destination with
  | (_, destination, some err) =>
    match asSyntaxError err with
    | some (_, Offset) =>
      (destination, .returned (some (.errorString
        ("the body contains badly-formed JSON (at character " ++ fmtD Offset ++ ")"))))
    | none =>
    -- Decode can also send back an io error message
    if errorsIs err .ErrUnexpectedEOF then
      (destination, .returned (some (.errorString "the body contains badly-formed JSON")))
    else
    match asUnmarshalTypeError err with
    | some (Field, Offset) =>
      if Field ≠ "" then
        (destination, .returned (some (.errorString
          ("the body contains the incorrect JSON type for field " ++ Quote table Field))))
      else
        (destination, .returned (some (.errorString
          ("the body contains the incorrect  JSON type (at character " ++ fmtD Offset ++ ")"))))
    | none =>
    if errorsIs err .EOF then
      (destination, .returned (some (.errorString "the body must not be empty")))
    else if HasPrefix err.Error "json: unknown field" then
      let fieldName := TrimPrefix err.Error "json: unknown field"
      (destination, .returned (some (.errorString ("body contains unknown key " ++ fieldName))))
    else
    match asMaxBytesError err with
    | some Limit =>
      (destination, .returned (some (.errorString
        ("the body must not be larger that " ++ fmtD Limit ++ " bytes"))))
    | none =>
    -- the programmer messed up
    if asInvalidUnmarshalError err then (destination, .panicked err)
    -- some other type of error
    else (destination, .returned (some err))
  | (dec, destination, none) =>
    match dec.Decode codec .emptyStruct with
    | (_, _, err) =>
      if ¬ errorsIsNilable err .EOF then
        (destination, .returned (some (.errorString "body must only contain a single JSON value")))
      else (destination, .returned none)

namespace ResponseWriter

end ResponseWriter

/-- The method `ByName` of `httprouter.Params`, a list of parameters with a
key and a value: the value of the first parameter whose key is `name`, or the
empty string. -/
def ByName (ps : List (List Nat × List Nat)) (name : List Nat) : List Nat :=
  match ps with
  | [] => []
  | p :: rest => if p.1 = name then p.2 else ByName rest name

/-- The method `readIDParam`, on the route parameters of the request. -/
def readIDParam (params : List (List Nat × List Nat)) : Int × Option GoError :=
  -- Convert the id from string to int
  match ParseInt (ByName params (utf8 "id")) with
  | (id, err) =>
    if err.isSome ∨ id < 1 then (0, some (.errorString "invalid id parameter"))
    else (id, none)

/-! ## Definitions used to state the properties -/

/-- The decoder `readJSON` decodes from: `dec` after lines 42 to 45. -/
def firstDecoder (body : List Nat) : Decoder :=
  (NewDecoder (MaxBytesReader (requestBody body) 250)).DisallowUnknownFields

/-- The scan of the first value of a body by `readValue`, in the first
`Decode` of `readJSON`. -/
def scanFirst (body : List Nat) : ScanResult :=
  scanBuffer (firstDecoder body).scan.reset (firstDecoder body).input 0

/-- The failure classes of the request decoder that are decided by a rule on
the error of the first `Decode`. -/
inductive Classification where
  | MalformedSyntax (offset : Int)
  | UnexpectedTermination
  | TypeMismatch (field : String) (offset : Int)
  | EmptyBody
  | UnknownField (name : String)
  | BodyTooLarge (limit : Int)
  deriving DecidableEq, Repr

/-- The message that reports a failure class to the caller. -/
def Classification.message (table : Nat → Bool) : Classification → String
  | .MalformedSyntax offset =>
    "the body contains badly-formed JSON (at character " ++ fmtD offset ++ ")"
  | .UnexpectedTermination => "the body contains badly-formed JSON"
  | .TypeMismatch field offset =>
    if field ≠ "" then "the body contains the incorrect JSON type for field " ++ Quote table field
    else "the body contains the incorrect  JSON type (at character " ++ fmtD offset ++ ")"
  | .EmptyBody => "the body must not be empty"
  | .UnknownField name => "body contains unknown key " ++ name
  | .BodyTooLarge limit => "the body must not be larger that " ++ fmtD limit ++ " bytes"

/-- The classification rules in the order of the specification: syntax error,
premature end of stream, type mismatch, empty body, unknown field, size
limit.  A rule gives the class of a failure it matches. -/
def classificationRules : List (GoError → Option Classification) :=
  [ fun err => (asSyntaxError err).map fun p => .MalformedSyntax p.2,
    fun err => if errorsIs err .ErrUnexpectedEOF then some .UnexpectedTermination else none,
    fun err => (asUnmarshalTypeError err).map fun p => .TypeMismatch p.1 p.2,
    fun err => if errorsIs err .EOF then some .EmptyBody else none,
    fun err =>
      if HasPrefix err.Error "json: unknown field" then
        some (.UnknownField (TrimPrefix err.Error "json: unknown field"))
      else none,
    fun err => (asMaxBytesError err).map .BodyTooLarge ]

/-- The class of a failure: that of the first rule, in order, that matches. -/
def classify (err : GoError) : Option Classification :=
  classificationRules.findSome? fun rule => rule err

/-- The value of a run of decimal digits, most significant first, continuing
from `acc`. -/
def decimalValue (acc : Nat) (ds : List Nat) : Nat :=
  ds.foldl (fun a c => a * 10 + (c - 48)) acc

/-- The text `s` is the base-10 text of the signed 64-bit integer `n`: an
optional sign `+` or `-`, then one or more decimal digits, of a value from
`-2^63` to `2^63 - 1`. -/
def IsInt64Text (s : List Nat) (n : Int) : Prop :=
  ∃ sign digits, s = sign ++ digits ∧ (sign = [] ∨ sign = [43] ∨ sign = [45]) ∧
    digits ≠ [] ∧ (∀ c ∈ digits, 48 ≤ c ∧ c ≤ 57) ∧
    n = (if sign = [45] then - (decimalValue 0 digits : Int) else (decimalValue 0 digits : Int)) ∧
    -(2 : Int) ^ 63 ≤ n ∧ n < (2 : Int) ^ 63

/-- An error field of a scanner holds nothing or a syntax error. -/
def SyntaxOrNone (e : Option GoError) : Prop :=
  e = none ∨ ∃ msg off, e = some (.syntaxError msg off)

/-- What every step function keeps or establishes, from the scanner `s` to its
result `r`: the byte count stays, an error stays a syntax error, an error
that is reported is a syntax error at the byte count, and the scanner does
not move to `stateError` without reporting it. -/
def StepOK (s : Scanner) (r : Scanner × ScanCode) : Prop :=
  r.1.bytes = s.bytes ∧
  (SyntaxOrNone s.err → SyntaxOrNone r.1.err) ∧
  (r.2 = .scanError → ∃ msg, r.1.err = some (.syntaxError msg s.bytes)) ∧
  (s.step ≠ .stateError → r.2 ≠ .scanError → r.2 ≠ .scanEnd → r.1.step ≠ .stateError)

/-- The scanner with which the loop of `readValue` goes on after the byte `c`,
when it does. -/
def nextScanner (s : Scanner) (c : Nat) : Option Scanner :=
  match ({ s with bytes := s.bytes + 1 } : Scanner).stepByte c with
  | (_, .scanEnd) => none
  | (s1, .scanEndObject) =>
    match stateEndValue s1 32 with
    | (_, .scanEnd) => none
    | (s2, _) => some s2
  | (s1, .scanEndArray) =>
    match stateEndValue s1 32 with
    | (_, .scanEnd) => none
    | (s2, _) => some s2
  | (_, .scanError) => none
  | (s1, _) => some s1

/-- The result of the loop of `readValue` when it stops at the byte `c`, after
`n` bytes. -/
def stopResult (s : Scanner) (c : Nat) (n : Nat) : ScanResult :=
  match ({ s with bytes := s.bytes + 1 } : Scanner).stepByte c with
  | (s1, .scanEnd) => .value n { s1 with bytes := s1.bytes - 1 }
  | (s1, .scanEndObject) => .value (n + 1) (stateEndValue s1 32).1
  | (s1, .scanEndArray) => .value (n + 1) (stateEndValue s1 32).1
  | (s1, _) => .failed s1

/-- The scanner with which the loop of `readValue` goes on after the bytes
`bs`, when it neither stops nor fails on one of them. -/
def runNext (s : Scanner) : List Nat → Option Scanner
  | [] => some s
  | c :: cs =>
    match nextScanner s c with
    | some s1 => runNext s1 cs
    | none => none

/-! ## JSON texts (RFC 8259), to state what a well-formed body is -/

/-- Insignificant whitespace: spaces, tabs, line feeds, carriage returns. -/
def IsWs (ws : List Nat) : Prop := ∀ c ∈ ws, c = 32 ∨ c = 9 ∨ c = 10 ∨ c = 13

/-- A run of decimal digits. -/
def IsDigits (ds : List Nat) : Prop := ∀ c ∈ ds, 48 ≤ c ∧ c ≤ 57

/-- The characters between the quotes of a JSON string: bytes from 0x20 other
than `"` and `\`, the two-byte escapes, and `\u` with four hexadecimal
digits. -/
inductive JChars : List Nat → Prop where
  | nil : JChars []
  | plain (c : Nat) (cs : List Nat) : 32 ≤ c → c ≠ 34 → c ≠ 92 → JChars cs → JChars (c :: cs)
  | escape (e : Nat) (cs : List Nat) :
    e = 34 ∨ e = 92 ∨ e = 47 ∨ e = 98 ∨ e = 102 ∨ e = 110 ∨ e = 114 ∨ e = 116 →
    JChars cs → JChars (92 :: e :: cs)
  | unicode (h1 h2 h3 h4 : Nat) (cs : List Nat) :
    isHex h1 = true → isHex h2 = true → isHex h3 = true → isHex h4 = true →
    JChars cs → JChars (92 :: 117 :: h1 :: h2 :: h3 :: h4 :: cs)

/-- A JSON string: characters in double quotes. -/
def JString (s : List Nat) : Prop := ∃ cs, JChars cs ∧ s = 34 :: cs ++ [34]

/-- The integer part of a JSON number: `0`, or a digit from 1 to 9 and digits. -/
def JInt (s : List Nat) : Prop :=
  s = [48] ∨ ∃ d ds, 49 ≤ d ∧ d ≤ 57 ∧ IsDigits ds ∧ s = d :: ds

/-- The optional fraction of a JSON number: `.` and one or more digits. -/
def JFrac (s : List Nat) : Prop :=
  s = [] ∨ ∃ d ds, 48 ≤ d ∧ d ≤ 57 ∧ IsDigits ds ∧ s = 46 :: d :: ds

/-- The optional exponent of a JSON number: `e` or `E`, an optional sign, and
one or more digits. -/
def JExp (s : List Nat) : Prop :=
  s = [] ∨ ∃ e sign d ds, (e = 101 ∨ e = 69) ∧ (sign = [] ∨ sign = [43] ∨ sign = [45]) ∧
    48 ≤ d ∧ d ≤ 57 ∧ IsDigits ds ∧ s = e :: sign ++ d :: ds

/-- A JSON number. -/
def JNumber (s : List Nat) : Prop :=
  ∃ minus i f x, (minus = [] ∨ minus = [45]) ∧ JInt i ∧ JFrac f ∧ JExp x ∧
    s = minus ++ i ++ f ++ x

/-- The three kinds of JSON text that are defined together: a value, the
elements between the brackets of a non-empty array, the members between the
braces of a non-empty object. -/
inductive JKind where
  | value
  | elements
  | members

/-- The grammar of JSON values, array elements and object members. -/
inductive JText : JKind → List Nat → Prop where
  | null : JText .value [110, 117, 108, 108]
  | true : JText .value [116, 114, 117, 101]
  | false : JText .value [102, 97, 108, 115, 101]
  | number (s : List Nat) : JNumber s → JText .value s
  | string (s : List Nat) : JString s → JText .value s
  | emptyArray (ws : List Nat) : IsWs ws → JText .value (91 :: ws ++ [93])
  | array (es : List Nat) : JText .elements es → JText .value (91 :: es ++ [93])
  | emptyObject (ws : List Nat) : IsWs ws → JText .value (123 :: ws ++ [125])
  | object (ms : List Nat) : JText .members ms → JText .value (123 :: ms ++ [125])
  | element (w1 v w2 : List Nat) :
    IsWs w1 → JText .value v → IsWs w2 → JText .elements (w1 ++ v ++ w2)
  | elements (w1 v w2 es : List Nat) :
    IsWs w1 → JText .value v → IsWs w2 → JText .elements es →
    JText .elements (w1 ++ v ++ w2 ++ 44 :: es)
  | member (w1 k w2 w3 v w4 : List Nat) :
    IsWs w1 → JString k → IsWs w2 → IsWs w3 → JText .value v → IsWs w4 →
    JText .members (w1 ++ k ++ w2 ++ 58 :: (w3 ++ v ++ w4))
  | members (w1 k w2 w3 v w4 ms : List Nat) :
    IsWs w1 → JString k → IsWs w2 → IsWs w3 → JText .value v → IsWs w4 →
    JText .members ms →
    JText .members (w1 ++ k ++ w2 ++ 58 :: (w3 ++ v ++ w4) ++ 44 :: ms)

/-- A JSON object: members, or only whitespace, in braces. -/
def JObject (s : List Nat) : Prop :=
  (∃ ws, IsWs ws ∧ s = 123 :: ws ++ [125]) ∨ (∃ ms, JText .members ms ∧ s = 123 :: ms ++ [125])

/-- The step functions in which the scanner expects a value. -/
def BeginsValue (st : StepFn) : Prop :=
  st = .stateBeginValue ∨ st = .stateBeginValueOrEmpty

/-- The step functions in which the scanner expects the key of a member. -/
def BeginsKey (st : StepFn) : Prop :=
  st = .stateBeginString ∨ st = .stateBeginStringOrEmpty

/-- The step functions in which the scanner is after the last byte of a value
(a number ends with the byte after it). -/
def AfterValue (st : StepFn) : Prop :=
  st = .stateEndValue ∨ st = .state0 ∨ st = .state1 ∨ st = .stateDot0 ∨ st = .stateE0

/-- What it is for the scanner to accept a JSON text inside an array or an
object (the parse stack `ps` is not empty there): from a state that expects
it, the loop of `readValue` runs over the text without stopping and leaves
the scanner after a value, with the stack as it was (for members, with
`parseObjectValue` on top instead of `parseObjectKey`). -/
def Accepts : JKind → List Nat → Prop
  | .value, v => ∀ st et ps e b, BeginsValue st → ps ≠ [] →
    ps.length + v.length ≤ maxNestingDepth →
    ∃ st1 b1, AfterValue st1 ∧ runNext ⟨st, et, ps, e, b⟩ v = some ⟨st1, et, ps, e, b1⟩
  | .elements, es => ∀ st et ps e b, BeginsValue st →
    ps.length + 1 + es.length ≤ maxNestingDepth →
    ∃ st1 b1, AfterValue st1 ∧
      runNext ⟨st, et, .parseArrayValue :: ps, e, b⟩ es =
        some ⟨st1, et, .parseArrayValue :: ps, e, b1⟩
  | .members, ms => ∀ st et ps e b, BeginsKey st →
    ps.length + 1 + ms.length ≤ maxNestingDepth →
    ∃ st1 b1, AfterValue st1 ∧
      runNext ⟨st, et, .parseObjectKey :: ps, e, b⟩ ms =
        some ⟨st1, et, .parseObjectValue :: ps, e, b1⟩

/-- The loop of `readValue` runs over every beginning of the text `t` that
keeps the parse stack within the nesting limit, from the scanner `s`, without
stopping. -/
def RunsPrefix (s : Scanner) (t : List Nat) : Prop :=
  ∀ a, a <+: t → s.parseState.length + a.length ≤ maxNestingDepth →
    ∃ s1, runNext s a = some s1

/-- What it is for the scanner to accept the beginnings of a JSON text inside
an array or an object: from a state that expects the text, the loop of
`readValue` runs over every beginning of it. -/
def AcceptsPrefix : JKind → List Nat → Prop
  | .value, v => ∀ st et ps e b, BeginsValue st → ps ≠ [] → RunsPrefix ⟨st, et, ps, e, b⟩ v
  | .elements, es => ∀ st et ps e b, BeginsValue st →
    RunsPrefix ⟨st, et, .parseArrayValue :: ps, e, b⟩ es
  | .members, ms => ∀ st et ps e b, BeginsKey st →
    RunsPrefix ⟨st, et, .parseObjectKey :: ps, e, b⟩ ms

/-! ## Sample values, to state the properties at concrete inputs -/

/-- A destination record, `struct { A int; B string }`. -/
structure Input where
  A : Int
  B : String
  deriving DecidableEq, Repr

/-- What `encoding/json` stores into an `Input`, and into a `struct{}`, for
the values used as examples; on every other value this sample reports no
error and stores nothing. -/
def sampleCodec : Codec Input where
  store := fun disallowUnknownFields data v =>
    if data = utf8 "\x7b\"A\":1,\"B\":\"x\"\x7d" then ({ A := 1, B := "x" }, none)
    else if data = utf8 "\x7b\"A\":1\x7d" then ({ v with A := 1 }, none)
    else if data = utf8 "\x7b\"A\":\"not-an-integer\"\x7d" then
      (v, some (.unmarshalTypeError "string" "int" 21 "Input" "A"))
    else if data = utf8 "\x7b\"A\":1,\"C\":2\x7d" ∧ disallowUnknownFields = true then
      ({ v with A := 1 }, some (.errorString "json: unknown field \"C\""))
    else if data = utf8 "\x7b\"A\":\"x\",\"C\":1\x7d" then
      (v, some (.unmarshalTypeError "string" "int" 8 "Input" "A"))
    else (v, none)
  storeEmptyStruct := fun disallowUnknownFields data =>
    if data = utf8 "\x7b\"B\":2\x7d" ∧ disallowUnknownFields = true then
      some (.errorString "json: unknown field \"B\"")
    else none

/-- A table of printable runes beyond Latin-1 for the examples: all of them. -/
def sampleTable : Nat → Bool := fun _ => true

theorem le_decimalValue (ds : List Nat) (acc : Nat) : acc ≤ decimalValue acc ds := by
  induction ds generalizing acc with
  | nil => simp [decimalValue]
  | cons c cs ih =>
    have := ih (acc * 10 + (c - 48))
    simp only [decimalValue, List.foldl_cons] at this ⊢
    omega

theorem parseUintLoop_ok (s0 : List Nat) (ds : List Nat) (acc : Nat) (hacc : acc ≤ maxUint64) :
    ((parseUintLoop s0 ds acc).2 = none ↔
      (∀ c ∈ ds, 48 ≤ c ∧ c ≤ 57) ∧ decimalValue acc ds ≤ maxUint64) ∧
    ((parseUintLoop s0 ds acc).2 = none → (parseUintLoop s0 ds acc).1 = decimalValue acc ds) ∧
    (∀ e, (parseUintLoop s0 ds acc).2 = some e → e.Err = .ErrRange →
      (parseUintLoop s0 ds acc).1 = maxUint64) := by
  induction ds generalizing acc with
  | nil => simp [parseUintLoop, decimalValue, hacc]
  | cons c cs ih =>
    have hle := le_decimalValue cs (acc * 10 + (c - 48))
    simp only [maxUint64] at hacc hle ih ⊢
    by_cases hd : 48 ≤ c ∧ c ≤ 57
    · have hd1 := hd.1
      have hd2 := hd.2
      by_cases hcut : acc ≥ (2 ^ 64 - 1) / 10 + 1
      · simp only [parseUintLoop, hd, hcut, maxUint64, decimalValue, List.foldl_cons] at hle ⊢
        simp
        intro _ _ _
        omega
      · by_cases hov : acc * 10 + (c - 48) ≤ 2 ^ 64 - 1
        · have h1 : (acc * 10) % 2 ^ 64 = acc * 10 := Nat.mod_eq_of_lt (by omega)
          have h2 : (acc * 10 + (c - 48)) % 2 ^ 64 = acc * 10 + (c - 48) :=
            Nat.mod_eq_of_lt (by omega)
          have := ih (acc * 10 + (c - 48)) hov
          simp only [parseUintLoop, hd, hcut, maxUint64, h1, h2, decimalValue, List.foldl_cons] at this ⊢
          have h3 : ¬ (acc * 10 + (c - 48) < acc * 10 ∨ acc * 10 + (c - 48) > 2 ^ 64 - 1) := by omega
          simp only [h3, if_false, and_self, true_and, if_true, List.mem_cons, forall_eq_or_imp, hd1, hd2]
          simpa using this
        · have h1 : (acc * 10) % 2 ^ 64 = acc * 10 := Nat.mod_eq_of_lt (by omega)
          have h2 : (acc * 10 + (c - 48)) % 2 ^ 64 = acc * 10 + (c - 48) - 2 ^ 64 := by
            rw [Nat.mod_eq_sub_mod (by omega)]
            exact Nat.mod_eq_of_lt (by omega)
          simp only [parseUintLoop, hd, hcut, maxUint64, h1, h2, decimalValue, List.foldl_cons] at hle ⊢
          have h3 : (acc * 10 + (c - 48) - 2 ^ 64 < acc * 10 ∨ acc * 10 + (c - 48) - 2 ^ 64 > 2 ^ 64 - 1) := by omega
          simp only [h3, if_true, and_self, true_and]
          simp
          intro _ _ _
          omega
    · have : (parseUintLoop s0 (c :: cs) acc) = (0, some ⟨"ParseUint", s0, .ErrSyntax⟩) := by
        simp only [parseUintLoop, hd, if_false]
        split <;> rfl
      rw [this]
      simp
      intro h1 h2
      exact absurd ⟨h1, h2⟩ hd

theorem ParseUint_ok (s : List Nat) :
    ((ParseUint s).2 = none ↔
      s ≠ [] ∧ (∀ c ∈ s, 48 ≤ c ∧ c ≤ 57) ∧ decimalValue 0 s ≤ maxUint64) ∧
    ((ParseUint s).2 = none → (ParseUint s).1 = decimalValue 0 s) ∧
    (∀ e, (ParseUint s).2 = some e → e.Err = .ErrRange → (ParseUint s).1 = maxUint64) := by
  by_cases hs : s = []
  · subst hs
    simp [ParseUint]
  · have := parseUintLoop_ok s s 0 (by simp [maxUint64])
    simpa [ParseUint, hs] using this

/-- What `ParseInt` returns, by the sign and the result of `ParseUint` on the rest. -/
theorem ParseInt_cons (c : Nat) (rest : List Nat) :
    ParseInt (c :: rest) =
      (let neg := c = 45
       let s1 := if c = 43 then rest else if c = 45 then rest else c :: rest
       if (ParseUint s1).2.isSome ∧ ((ParseUint s1).2.map NumError.Err) ≠ some .ErrRange then
         (0, some ⟨"ParseInt", c :: rest, .ErrSyntax⟩)
       else if ¬ neg ∧ (ParseUint s1).1 ≥ 2 ^ 63 then
         (Int.ofNat (2 ^ 63 - 1), some ⟨"ParseInt", c :: rest, .ErrRange⟩)
       else if neg ∧ (ParseUint s1).1 > 2 ^ 63 then
         (- Int.ofNat (2 ^ 63), some ⟨"ParseInt", c :: rest, .ErrRange⟩)
       else (if neg then - Int.ofNat (ParseUint s1).1 else Int.ofNat (ParseUint s1).1, none)) := by
  rfl

theorem ParseInt_signed (neg : Bool) (c : Nat) (rest s1 : List Nat) (n : Int)
    (hneg : (c = 45) ↔ neg = true)
    (hs1 : (if c = 43 then rest else if c = 45 then rest else c :: rest) = s1) :
    ParseInt (c :: rest) = (n, none) ↔
      (s1 ≠ [] ∧ (∀ c ∈ s1, 48 ≤ c ∧ c ≤ 57) ∧
        n = (if neg then - (decimalValue 0 s1 : Int) else (decimalValue 0 s1 : Int)) ∧
        -(2 : Int) ^ 63 ≤ n ∧ n < (2 : Int) ^ 63) := by
  obtain ⟨h1, h2, h3⟩ := ParseUint_ok s1
  rw [ParseInt_cons]
  simp only [hs1]
  cases hr : (ParseUint s1).2 with
  | some e =>
    have hne : ¬ (s1 ≠ [] ∧ (∀ c ∈ s1, 48 ≤ c ∧ c ≤ 57) ∧ decimalValue 0 s1 ≤ maxUint64) := by
      rw [← h1, hr]; simp
    by_cases hk : e.Err = .ErrRange
    · have hmax := h3 e hr hk
      simp only [maxUint64] at hmax hne
      simp only [Option.isSome_some, Option.map_some', hk, ne_eq, not_true_eq_false, and_false,
        if_false, hmax]
      cases neg <;> simp [hneg] <;> intro ha hb hd <;>
        (have : ¬ decimalValue 0 s1 ≤ 2 ^ 64 - 1 := fun h => hne ⟨ha, hb, h⟩) <;> omega
    · simp only [Option.isSome_some, Option.map_some', ne_eq, Option.some.injEq, hk,
        not_false_eq_true, and_self, if_true, Prod.mk.injEq, false_and, reduceCtorEq, and_false,
        false_iff]
      intro ⟨ha, hb, hc, hd, he⟩
      apply hne
      refine ⟨ha, hb, ?_⟩
      simp only [maxUint64]
      cases neg <;> simp at hc <;> subst hc <;> omega
  | none =>
    have hv := h2 hr
    have hok := h1.1 hr
    simp only [Option.isSome_none, Bool.false_eq_true, false_and, if_false, hv]
    cases neg
    · have : ¬ c = 45 := by simp [hneg]
      simp only [this, not_false_eq_true, true_and, false_and, if_false, Bool.false_eq_true]
      by_cases hge : decimalValue 0 s1 ≥ 2 ^ 63
      · simp only [hge, if_true, Prod.mk.injEq, reduceCtorEq, and_false, false_iff]
        intro ⟨_, _, hc, _, he⟩
        subst hc
        omega
      · simp only [hge, if_false, Prod.mk.injEq, and_true, Int.ofNat_eq_coe]
        constructor
        · intro h; subst h
          exact ⟨hok.1, hok.2.1, rfl, by omega, by omega⟩
        · intro ⟨_, _, hc, _, _⟩; exact hc.symm
    · have : c = 45 := by simp [hneg]
      simp only [this, not_true_eq_false, false_and, if_false, true_and, if_true]
      by_cases hgt : decimalValue 0 s1 > 2 ^ 63
      · simp only [hgt, if_true, Prod.mk.injEq, reduceCtorEq, and_false, false_iff]
        intro ⟨_, _, hc, hd, _⟩
        subst hc
        omega
      · simp only [hgt, if_false, Prod.mk.injEq, and_true, Int.ofNat_eq_coe]
        constructor
        · intro h; subst h
          exact ⟨hok.1, hok.2.1, rfl, by omega, by omega⟩
        · intro ⟨_, _, hc, _, _⟩; exact hc.symm


/-- The function `ParseInt` succeeds with `n` exactly on the decimal texts of the signed
64-bit integers. -/
theorem ParseInt_ok_iff (s : List Nat) (n : Int) :
    ParseInt s = (n, none) ↔ IsInt64Text s n := by
  cases s with
  | nil =>
    simp only [ParseInt, IsInt64Text, Prod.mk.injEq, reduceCtorEq, and_false, false_iff]
    rintro ⟨sign, digits, h, -, hne, -⟩
    simp at h
    exact hne h.2
  | cons c rest =>
    by_cases h43 : c = 43
    · subst h43
      rw [ParseInt_signed false 43 rest rest n (by simp) (by simp)]
      constructor
      · rintro ⟨ha, hb, hc, hd, he⟩
        exact ⟨[43], rest, rfl, by simp, ha, hb, by simpa using hc, hd, he⟩
      · rintro ⟨sign, digits, h, hsign, hne, hdig, hn, hr1, hr2⟩
        rcases hsign with rfl | rfl | rfl
        · simp only [List.nil_append] at h
          subst h
          have := hdig 43 (by simp)
          omega
        · simp only [List.singleton_append, List.cons.injEq, true_and] at h
          subst h
          exact ⟨hne, hdig, by simpa using hn, hr1, hr2⟩
        · simp at h
    · by_cases h45 : c = 45
      · subst h45
        rw [ParseInt_signed true 45 rest rest n (by simp) (by simp)]
        constructor
        · rintro ⟨ha, hb, hc, hd, he⟩
          exact ⟨[45], rest, rfl, by simp, ha, hb, by simpa using hc, hd, he⟩
        · rintro ⟨sign, digits, h, hsign, hne, hdig, hn, hr1, hr2⟩
          rcases hsign with rfl | rfl | rfl
          · simp only [List.nil_append] at h
            subst h
            have := hdig 45 (by simp)
            omega
          · simp at h
          · simp only [List.singleton_append, List.cons.injEq, true_and] at h
            subst h
            exact ⟨hne, hdig, by simpa using hn, hr1, hr2⟩
      · rw [ParseInt_signed false c rest (c :: rest) n (by simp [h45]) (by simp [h43, h45])]
        constructor
        · rintro ⟨ha, hb, hc, hd, he⟩
          exact ⟨[], c :: rest, rfl, by simp, ha, hb, by simpa using hc, hd, he⟩
        · rintro ⟨sign, digits, h, hsign, hne, hdig, hn, hr1, hr2⟩
          rcases hsign with rfl | rfl | rfl
          · simp only [List.nil_append] at h
            subst h
            exact ⟨hne, hdig, by simpa using hn, hr1, hr2⟩
          · simp only [List.singleton_append, List.cons.injEq] at h
            exact absurd h.1 h43
          · simp only [List.singleton_append, List.cons.injEq] at h
            exact absurd h.1 h45

/-- C10. `readIDParam` returns only positive identifiers: it returns `(n, nil)`
exactly when the `id` route parameter is the base-10 text of a signed 64-bit
integer `n` with `n ≥ 1`; in every other case it returns the id 0 with the
error "invalid id parameter"; so a nil error comes with an id that is at
least 1. -/
theorem readIDParam_positive (params : List (List Nat × List Nat)) :
    (∀ n, readIDParam params = (n, none) ↔
      (IsInt64Text (ByName params (utf8 "id")) n ∧ 1 ≤ n)) ∧
    ((¬ ∃ n, IsInt64Text (ByName params (utf8 "id")) n ∧ 1 ≤ n) →
      readIDParam params = (0, some (.errorString "invalid id parameter"))) ∧
    (∀ n, readIDParam params = (n, none) → 1 ≤ n) := by
  have key : ∀ n, readIDParam params = (n, none) ↔
      (IsInt64Text (ByName params (utf8 "id")) n ∧ 1 ≤ n) := by
    intro n
    rw [← ParseInt_ok_iff]
    unfold readIDParam
    rcases hp : ParseInt (ByName params (utf8 "id")) with ⟨id, err⟩
    cases err with
    | some e => simp
    | none =>
      by_cases hid : id < 1
      · simp only [Option.isSome_none, Bool.false_eq_true, hid, or_true, if_true, Prod.mk.injEq,
          reduceCtorEq, and_false, and_true, false_iff, not_and, not_le]
        intro h; omega
      · simp only [Option.isSome_none, Bool.false_eq_true, hid, or_self, if_false, Prod.mk.injEq,
          and_true]
        constructor
        · intro h; exact ⟨h, by omega⟩
        · intro h; exact h.1
  refine ⟨key, ?_, ?_⟩
  · intro hno
    unfold readIDParam
    rcases hp : ParseInt (ByName params (utf8 "id")) with ⟨id, err⟩
    cases err with
    | some e => simp
    | none =>
      by_cases hid : id < 1
      · simp [hid]
      · exfalso
        apply hno
        refine ⟨id, (ParseInt_ok_iff _ _).1 hp, by omega⟩
  · intro n h
    exact ((key n).1 h).2

/-- The results of `readIDParam` on some route parameters: `42` and `+7` are accepted; an
absent or empty parameter, text that is not a number, bytes that are not
text, zero, a negative number and a number beyond 64 bits are refused. -/
theorem readIDParam_examples :
    readIDParam [(utf8 "id", utf8 "42")] = (42, none) ∧
    readIDParam [(utf8 "id", utf8 "+7")] = (7, none) ∧
    readIDParam [(utf8 "id", utf8 "9223372036854775807")] = (9223372036854775807, none) ∧
    readIDParam [] = (0, some (.errorString "invalid id parameter")) ∧
    readIDParam [(utf8 "id", utf8 "")] = (0, some (.errorString "invalid id parameter")) ∧
    readIDParam [(utf8 "id", utf8 "abc")] = (0, some (.errorString "invalid id parameter")) ∧
    readIDParam [(utf8 "id", [49, 255])] = (0, some (.errorString "invalid id parameter")) ∧
    readIDParam [(utf8 "id", utf8 "0")] = (0, some (.errorString "invalid id parameter")) ∧
    readIDParam [(utf8 "id", utf8 "-5")] = (0, some (.errorString "invalid id parameter")) ∧
    readIDParam [(utf8 "id", utf8 "9223372036854775808")] =
      (0, some (.errorString "invalid id parameter")) := by
  decide

/-- The result of `readJSON` by the result of its first `Decode`, when that fails. -/
theorem readJSON_of_failed {D : Type} (codec : Codec D) (table : Nat → Bool) (body : List Nat)
    (destination : Destination D) (err : GoError)
    (h : ((firstDecoder body).Decode codec destination).2.2 = some err) :
    readJSON codec table body destination =
      (((firstDecoder body).Decode codec destination).2.1,
        match classify err with
        | some cls => .returned (some (.errorString (cls.message table)))
        | none => if asInvalidUnmarshalError err then .panicked err else .returned (some err)) := by
  rcases hdec : (firstDecoder body).Decode codec destination with ⟨dec1, dest1, e⟩
  rw [hdec] at h
  simp only at h
  subst h
  have hd : ((NewDecoder (MaxBytesReader (requestBody body) 250)).DisallowUnknownFields).Decode
      codec destination = (dec1, dest1, some err) := hdec
  simp only [readJSON, hd, classify, classificationRules, List.findSome?]
  cases h1 : asSyntaxError err with
  | some p => simp [Classification.message]
  | none =>
    by_cases h2 : errorsIs err .ErrUnexpectedEOF = true
    · simp [h2, Classification.message]
    · cases h3 : asUnmarshalTypeError err with
      | some p =>
        by_cases hf : p.1 = "" <;> simp [h2, hf, Classification.message]
      | none =>
        by_cases h4 : errorsIs err .EOF = true
        · simp [h2, h4, Classification.message]
        · by_cases h5 : HasPrefix err.Error "json: unknown field" = true
          · simp [h2, h4, h5, Classification.message]
          · cases h6 : asMaxBytesError err with
            | some l => simp [h2, h4, h5, Classification.message]
            | none => 
              by_cases h7 : asInvalidUnmarshalError err = true <;> simp [h2, h4, h5, h7]

/-- The result of `readJSON` by the result of its second `Decode`, when the first succeeds. -/
theorem readJSON_of_decoded {D : Type} (codec : Codec D) (table : Nat → Bool) (body : List Nat)
    (destination : Destination D)
    (h : ((firstDecoder body).Decode codec destination).2.2 = none) :
    readJSON codec table body destination =
      (((firstDecoder body).Decode codec destination).2.1,
        if errorsIsNilable (((firstDecoder body).Decode codec destination).1.Decode codec
            .emptyStruct).2.2 .EOF then .returned none
        else .returned (some (.errorString "body must only contain a single JSON value"))) := by
  rcases hdec : (firstDecoder body).Decode codec destination with ⟨dec1, dest1, e⟩
  rw [hdec] at h
  simp only at h
  subst h
  have hd : ((NewDecoder (MaxBytesReader (requestBody body) 250)).DisallowUnknownFields).Decode
      codec destination = (dec1, dest1, none) := hdec
  simp only [readJSON, hd]
  by_cases h2 : errorsIsNilable (dec1.Decode codec .emptyStruct).2.2 .EOF = true
    <;> simp [h2]

theorem StepOK_stateEndTop (s : Scanner) (c : Nat) : StepOK s (stateEndTop s c) := by
  unfold stateEndTop Scanner.error
  split_ifs <;> simp [StepOK, SyntaxOrNone]

theorem StepOK_stateEndValue (s : Scanner) (c : Nat) : StepOK s (stateEndValue s c) := by
  rcases s with ⟨st, et, ps, e, b⟩
  rcases ps with _ | ⟨p, rest⟩
  · unfold stateEndValue stateEndTop Scanner.error
    simp only
    split_ifs <;> simp [StepOK, SyntaxOrNone]
  · cases p <;> unfold stateEndValue Scanner.error Scanner.popParseState <;> simp only <;>
      split_ifs <;> simp [StepOK, SyntaxOrNone]

theorem StepOK_stateBeginValue (s : Scanner) (c : Nat) : StepOK s (stateBeginValue s c) := by
  unfold stateBeginValue Scanner.pushParseState Scanner.error
  split
  · simp [StepOK]
  · split <;> (try simp only) <;> (try split_ifs) <;> simp [StepOK, SyntaxOrNone]

theorem StepOK_stateBeginValueOrEmpty (s : Scanner) (c : Nat) :
    StepOK s (stateBeginValueOrEmpty s c) := by
  unfold stateBeginValueOrEmpty
  split_ifs
  · simp [StepOK]
  · exact StepOK_stateEndValue _ _
  · exact StepOK_stateBeginValue _ _

theorem StepOK_stateBeginString (s : Scanner) (c : Nat) : StepOK s (stateBeginString s c) := by
  unfold stateBeginString Scanner.error
  split_ifs <;> simp [StepOK, SyntaxOrNone]

theorem StepOK_stateBeginStringOrEmpty (s : Scanner) (c : Nat) :
    StepOK s (stateBeginStringOrEmpty s c) := by
  unfold stateBeginStringOrEmpty
  split_ifs
  · simp [StepOK]
  · exact StepOK_stateEndValue ({ s with parseState := .parseObjectValue :: s.parseState.tail }) c
  · exact StepOK_stateBeginString _ _

theorem StepOK_state0 (s : Scanner) (c : Nat) : StepOK s (state0 s c) := by
  unfold state0
  split_ifs
  · simp [StepOK]
  · simp [StepOK]
  · exact StepOK_stateEndValue _ _

theorem StepOK_stateESign (s : Scanner) (c : Nat) : StepOK s (stateESign s c) := by
  unfold stateESign Scanner.error
  split_ifs <;> simp [StepOK, SyntaxOrNone]

/-- Every step function other than `stateError` keeps the byte count and the
kind of the error, reports its error at the current byte count, and does not
move to `stateError` without saying so. -/
theorem StepOK_stepByte (s : Scanner) (c : Nat) (h : s.step ≠ .stateError) :
    StepOK s (s.stepByte c) := by
  unfold Scanner.stepByte
  split
  · exact StepOK_stateBeginValueOrEmpty _ _
  · exact StepOK_stateBeginValue _ _
  · exact StepOK_stateBeginStringOrEmpty _ _
  · exact StepOK_stateBeginString _ _
  · exact StepOK_stateEndValue _ _
  · exact StepOK_stateEndTop _ _
  · unfold stateInString Scanner.error
    split_ifs <;> simp [StepOK, SyntaxOrNone]
  · unfold stateInStringEsc Scanner.error
    split_ifs <;> simp [StepOK, SyntaxOrNone]
  iterate 4
    · unfold stateInStringEscHex Scanner.error
      split_ifs <;> simp [StepOK, SyntaxOrNone]
  · unfold stateNeg Scanner.error
    split_ifs <;> simp [StepOK, SyntaxOrNone]
  · unfold state1
    split_ifs
    · simp [StepOK]
    · exact StepOK_state0 _ _
  · exact StepOK_state0 _ _
  · unfold stateDot Scanner.error
    split_ifs <;> simp [StepOK, SyntaxOrNone]
  · unfold stateDot0
    split_ifs
    · simp [StepOK]
    · simp [StepOK]
    · exact StepOK_stateEndValue _ _
  · unfold stateE
    split_ifs
    · simp [StepOK]
    · exact StepOK_stateESign _ _
  · exact StepOK_stateESign _ _
  · unfold stateE0
    split_ifs
    · simp [StepOK]
    · exact StepOK_stateEndValue _ _
  iterate 10
    · unfold stateLiteral Scanner.error
      split_ifs <;> simp [StepOK, SyntaxOrNone]
  · rename_i hs
    exact absurd hs h


/-- The invented space after `}` or `]` ends the top-level value or is skipped. -/
theorem stateEndValue_space (s : Scanner) :
    (stateEndValue s 32).2 = .scanEnd ∨
      stateEndValue s 32 = ({ s with step := .stateEndValue }, .scanSkipSpace) := by
  rcases s with ⟨st, et, ps, e, b⟩
  rcases ps with _ | ⟨p, rest⟩
  · left; simp [stateEndValue, stateEndTop, isSpace]
  · right; simp [stateEndValue, isSpace]

/-- One round of the loop of `readValue`. -/
theorem scanBuffer_cons (s : Scanner) (c : Nat) (cs : List Nat) (n : Nat) :
    scanBuffer s (c :: cs) n =
      match nextScanner s c with
      | some s1 => scanBuffer s1 cs (n + 1)
      | none => stopResult s c n := by
  rw [scanBuffer]
  unfold nextScanner stopResult
  rcases hstep : ({ s with bytes := s.bytes + 1 } : Scanner).stepByte c with ⟨t, code⟩
  cases code <;> simp only
  all_goals
    rcases hs : stateEndValue t 32 with ⟨t2, code2⟩
    cases code2 <;> simp only

theorem stopResult_ne_exhausted (s : Scanner) (c : Nat) (n : Nat) (r : Scanner) :
    stopResult s c n ≠ .exhausted r := by
  unfold stopResult
  split <;> simp

theorem scanBuffer_next (s : Scanner) (c : Nat) (cs : List Nat) (n : Nat) (s1 : Scanner)
    (h : nextScanner s c = some s1) : scanBuffer s (c :: cs) n = scanBuffer s1 cs (n + 1) := by
  rw [scanBuffer_cons, h]

theorem scanBuffer_stop (s : Scanner) (c : Nat) (cs : List Nat) (n : Nat)
    (h : nextScanner s c = none) : scanBuffer s (c :: cs) n = stopResult s c n := by
  rw [scanBuffer_cons, h]

theorem nextScanner_ok (s : Scanner) (c : Nat) (s1 : Scanner) (hs : s.step ≠ .stateError)
    (h : nextScanner s c = some s1) :
    s1.bytes = s.bytes + 1 ∧ s1.step ≠ .stateError ∧ (SyntaxOrNone s.err → SyntaxOrNone s1.err) := by
  have hok := StepOK_stepByte { s with bytes := s.bytes + 1 } c hs
  unfold nextScanner at h
  rcases hstep : ({ s with bytes := s.bytes + 1 } : Scanner).stepByte c with ⟨t, code⟩
  rw [hstep] at h hok
  obtain ⟨h1, h2, -, h4⟩ := hok
  simp only at h1 h2 h4
  have key : ∀ (hc1 : code ≠ .scanError) (hc2 : code ≠ .scanEnd), t.bytes = s.bytes + 1 ∧
      t.step ≠ .stateError ∧ (SyntaxOrNone s.err → SyntaxOrNone t.err) :=
    fun hc1 hc2 => ⟨h1, h4 hs hc1 hc2, h2⟩
  have key2 : ∀ (hc1 : code ≠ .scanError) (hc2 : code ≠ .scanEnd) (t2 : Scanner) (code2 : ScanCode),
      stateEndValue t 32 = (t2, code2) → code2 ≠ .scanEnd → t2.bytes = s.bytes + 1 ∧
      t2.step ≠ .stateError ∧ (SyntaxOrNone s.err → SyntaxOrNone t2.err) := by
    intro hc1 hc2 t2 code2 he hne
    rcases stateEndValue_space t with h' | h'
    · rw [he] at h'; exact absurd h' hne
    · rw [he] at h'
      cases h'
      exact ⟨h1, by simp, h2⟩
  cases code <;> simp only at h
  case scanEnd => cases h
  case scanError => cases h
  case scanEndObject =>
    rcases hs2 : stateEndValue t 32 with ⟨t2, code2⟩
    rw [hs2] at h
    cases code2 <;> simp only at h <;> cases h <;>
      exact key2 (by decide) (by decide) _ _ hs2 (by decide)
  case scanEndArray =>
    rcases hs2 : stateEndValue t 32 with ⟨t2, code2⟩
    rw [hs2] at h
    cases code2 <;> simp only at h <;> cases h <;>
      exact key2 (by decide) (by decide) _ _ hs2 (by decide)
  all_goals
    cases h
    exact key (by decide) (by decide)

/-- Scanning a buffer in two parts. -/
theorem scanBuffer_append (p q : List Nat) (s : Scanner) (n : Nat) :
    scanBuffer s (p ++ q) n =
      match scanBuffer s p n with
      | .exhausted s1 => scanBuffer s1 q (n + p.length)
      | r => r := by
  induction p generalizing s n with
  | nil => simp [scanBuffer]
  | cons c cs ih =>
    cases hn : nextScanner s c with
    | some s1 =>
      rw [List.cons_append, scanBuffer_next _ _ _ _ _ hn, scanBuffer_next _ _ _ _ _ hn, ih]
      simp only [List.length_cons]
      rw [show n + (cs.length + 1) = n + 1 + cs.length by omega]
    | none =>
      rw [List.cons_append, scanBuffer_stop _ _ _ _ hn, scanBuffer_stop _ _ _ _ hn]
      cases hr : stopResult s c n with
      | exhausted r => exact absurd hr (stopResult_ne_exhausted _ _ _ r)
      | value _ _ => rfl
      | failed _ => rfl

/-- A buffer scanned to its end: every byte was counted, no error was met. -/
theorem scanBuffer_exhausted (bs : List Nat) (s : Scanner) (n : Nat) (s1 : Scanner)
    (hs : s.step ≠ .stateError) (h : scanBuffer s bs n = .exhausted s1) :
    s1.bytes = s.bytes + bs.length ∧ s1.step ≠ .stateError ∧
      (SyntaxOrNone s.err → SyntaxOrNone s1.err) := by
  induction bs generalizing s n with
  | nil =>
    simp only [scanBuffer, ScanResult.exhausted.injEq] at h
    subst h
    simp [hs]
  | cons c cs ih =>
    cases hn : nextScanner s c with
    | none =>
      rw [scanBuffer_stop _ _ _ _ hn] at h
      exact absurd h (stopResult_ne_exhausted _ _ _ s1)
    | some t =>
      rw [scanBuffer_next _ _ _ _ _ hn] at h
      obtain ⟨h1, h2, h3⟩ := nextScanner_ok s c t hs hn
      obtain ⟨h4, h5, h6⟩ := ih t (n + 1) h2 h
      refine ⟨?_, h5, fun h => h6 (h3 h)⟩
      rw [h4, h1, List.length_cons]
      push_cast
      ring

theorem firstDecoder_err (body : List Nat) : (firstDecoder body).err = none := rfl

theorem firstDecoder_flag (body : List Nat) : (firstDecoder body).disallowUnknownFields = true :=
  rfl

theorem firstDecoder_scan (body : List Nat) :
    (firstDecoder body).scan.reset = ⟨.stateBeginValue, false, [], none, 0⟩ := rfl

theorem firstDecoder_input (body : List Nat) : (firstDecoder body).input = body.take 250 := by
  unfold firstDecoder MaxBytesReader requestBody NewDecoder Decoder.DisallowUnknownFields
  by_cases h : body.length ≤ 250
  · simp [h, List.take_of_length_le]
  · simp [h]

theorem firstDecoder_final (body : List Nat) :
    (firstDecoder body).final = if body.length ≤ 250 then .EOF else .maxBytesError 250 := by
  unfold firstDecoder MaxBytesReader requestBody NewDecoder Decoder.DisallowUnknownFields
  by_cases h : body.length ≤ 250
  · simp [h]
  · simp [h]

/-- The first `Decode` of `readJSON` when `readValue` fails. -/
theorem Decode_first_failed {D : Type} (codec : Codec D) (body : List Nat)
    (destination : Destination D) (err : GoError)
    (h : (firstDecoder body).readValue.2.2 = some err) :
    ((firstDecoder body).Decode codec destination).2 = (destination, some err) := by
  unfold Decoder.Decode
  rw [firstDecoder_err]
  rcases hr : (firstDecoder body).readValue with ⟨dec1, n, e⟩
  rw [hr] at h
  simp only at h
  subst h
  rfl

/-- The first `Decode` of `readJSON` when `readValue` finds a value of `n` bytes. -/
theorem Decode_first_value {D : Type} (codec : Codec D) (body : List Nat)
    (destination : Destination D) (n : Nat)
    (h : (firstDecoder body).readValue.2 = (n, none)) :
    (firstDecoder body).Decode codec destination =
      ({ (firstDecoder body).readValue.1 with
          input := (firstDecoder body).readValue.1.input.drop n },
        unmarshal codec (firstDecoder body).readValue.1.disallowUnknownFields
          ((firstDecoder body).readValue.1.input.take n) destination) := by
  unfold Decoder.Decode
  rw [firstDecoder_err]
  rcases hr : (firstDecoder body).readValue with ⟨dec1, n1, e⟩
  rw [hr] at h
  simp only [Prod.mk.injEq] at h
  obtain ⟨h1, h2⟩ := h
  subst h1 h2
  rfl

theorem readValue_exhausted_limit (body : List Nat) (s : Scanner) (hlen : 250 < body.length)
    (h : scanFirst body = .exhausted s) :
    (firstDecoder body).readValue.2.2 = some (.maxBytesError 250) := by
  unfold scanFirst at h
  unfold Decoder.readValue
  rw [h]
  have hf := firstDecoder_final body
  rw [if_neg (by omega)] at hf
  simp [hf]

/-- A body of more than 250 bytes, of which the scanner reads the first 250
without an error and without an end of the first value, is too large. -/
theorem readJSON_of_exhausted_limit {D : Type} (codec : Codec D) (table : Nat → Bool)
    (body : List Nat) (destination : Destination D) (s : Scanner)
    (hlen : 250 < body.length) (hscan : scanFirst body = .exhausted s) :
    readJSON codec table body destination =
      (destination,
        .returned (some (.errorString "the body must not be larger that 250 bytes"))) := by
  have h1 := Decode_first_failed codec body destination _ (readValue_exhausted_limit body s hlen hscan)
  rw [readJSON_of_failed codec table body destination (.maxBytesError 250) (by rw [h1]), h1]
  rfl

/-! ### What `readValue` leaves of the decoder -/

theorem readValue_input (dec : Decoder) : dec.readValue.1.input = dec.input := by
  unfold Decoder.readValue
  split
  · rfl
  · rfl
  · split
    · split <;> rfl
    · rfl

theorem readValue_final (dec : Decoder) : dec.readValue.1.final = dec.final := by
  unfold Decoder.readValue
  split
  · rfl
  · rfl
  · split
    · split <;> rfl
    · rfl

theorem readValue_flag (dec : Decoder) :
    dec.readValue.1.disallowUnknownFields = dec.disallowUnknownFields := by
  unfold Decoder.readValue
  split
  · rfl
  · rfl
  · split
    · split <;> rfl
    · rfl

theorem readValue_err (dec : Decoder) (h : dec.readValue.2.2 = none) (he : dec.err = none) :
    dec.readValue.1.err = none := by
  unfold Decoder.readValue at h ⊢
  cases hs : scanBuffer dec.scan.reset dec.input 0 with
  | value n s => simp only [hs]; exact he
  | failed s =>
    rw [hs] at h
    simp only at h
    simp only [hs]
    exact h
  | exhausted s =>
    rw [hs] at h
    simp only at h ⊢
    by_cases hf : dec.final = .EOF
    · rw [if_pos hf] at h ⊢
      rcases hst : s.stepByte 32 with ⟨s1, code⟩
      rw [hst] at h
      cases code <;> simp only at h ⊢ <;> first | exact he | (exact absurd h (by simp))
    · rw [if_neg hf] at h
      simp at h

/-- At the end of a body, with only spaces left, `Decode` reports `io.EOF`. -/
theorem Decode_at_end {D : Type} (codec : Codec D) (dec : Decoder) (v : Destination D)
    (herr : dec.err = none) (hfinal : dec.final = .EOF) (hin : nonSpace dec.input = false) :
    (dec.Decode codec v).2.2 = some .EOF := by
  have hscan : ∀ (bs : List Nat) (n : Nat) (s : Scanner), nonSpace bs = false →
      s.step = .stateBeginValue → scanBuffer s bs n = .exhausted { s with bytes := s.bytes + bs.length } := by
    intro bs
    induction bs with
    | nil => intro n s _ _; simp [scanBuffer]
    | cons c cs ih =>
      intro n s hns hst
      simp only [nonSpace, List.any_cons, Bool.or_eq_false_iff, Bool.not_eq_false'] at hns
      have hstep : ({ s with bytes := s.bytes + 1 } : Scanner).stepByte c =
          ({ s with bytes := s.bytes + 1 }, .scanSkipSpace) := by
        simp [Scanner.stepByte, hst, stateBeginValue, hns.1]
      rw [scanBuffer, hstep]
      simp only
      rw [ih (n + 1) { s with bytes := s.bytes + 1 } (by simpa [nonSpace] using hns.2) hst]
      simp only [List.length_cons, ScanResult.exhausted.injEq, Scanner.mk.injEq, true_and]
      push_cast
      ring
  unfold Decoder.Decode
  rw [herr]
  simp only
  unfold Decoder.readValue
  rw [hscan dec.input 0 dec.scan.reset hin rfl]
  simp only [if_pos hfinal]
  have hstep : ({ dec.scan.reset with bytes := dec.scan.reset.bytes + dec.input.length } :
      Scanner).stepByte 32 =
      ({ dec.scan.reset with bytes := dec.scan.reset.bytes + dec.input.length }, .scanSkipSpace) := by
    simp [Scanner.stepByte, Scanner.reset, stateBeginValue, isSpace]
  simp only [hstep, hin]
  rfl

/-- When the body has at most 250 bytes, the decoder reads all of it as its
first value, and the codec stores that value without an error, `readJSON`
returns nil and the destination holds what was stored. -/
theorem readJSON_whole_body {D : Type} (codec : Codec D) (table : Nat → Bool)
    (body : List Nat) (v v1 : D) (hlen : body.length ≤ 250)
    (hvalue : (firstDecoder body).readValue.2 = (body.length, none))
    (hstore : codec.store true body v = (v1, none)) :
    readJSON codec table body (.pointer v) = (.pointer v1, .returned none) := by
  have hin : (firstDecoder body).readValue.1.input = body := by
    rw [readValue_input, firstDecoder_input, List.take_of_length_le hlen]
  have hd := Decode_first_value codec body (.pointer v) body.length hvalue
  rw [hin, readValue_flag, firstDecoder_flag, List.take_length, List.drop_length] at hd
  simp only [unmarshal, hstore] at hd
  have hnil : ((firstDecoder body).Decode codec (.pointer v)).2.2 = none := by rw [hd]
  rw [readJSON_of_decoded codec table body (.pointer v) hnil, hd]
  simp only
  have hend := Decode_at_end codec
    { input := [], final := (firstDecoder body).readValue.1.final,
      err := (firstDecoder body).readValue.1.err, scan := (firstDecoder body).readValue.1.scan,
      disallowUnknownFields := (firstDecoder body).readValue.1.disallowUnknownFields }
    .emptyStruct (readValue_err _ (by rw [hvalue]) (firstDecoder_err body))
    (by simp only [readValue_final, firstDecoder_final, if_pos hlen]) (by rfl)
  rw [hend]
  rfl

/-! ### C2 -/

/-- C2, counterexample: two bodies exceed the limit of 250 bytes and are not
reported as too large.  For 251 bytes `x`, `readJSON` reports the syntax error
at the first byte; for `{"A":1}` followed by 250 spaces, it reports that the
body must hold a single JSON value. -/
theorem readJSON_oversized_counterexample :
    (List.replicate 251 120).length > 250 ∧
    readJSON sampleCodec sampleTable (List.replicate 251 120) (.pointer ⟨0, ""⟩) =
      (.pointer ⟨0, ""⟩,
        .returned (some (.errorString "the body contains badly-formed JSON (at character 1)"))) ∧
    (utf8 "\x7b\"A\":1\x7d" ++ List.replicate 250 32).length > 250 ∧
    readJSON sampleCodec sampleTable (utf8 "\x7b\"A\":1\x7d" ++ List.replicate 250 32)
        (.pointer ⟨0, ""⟩) =
      (.pointer ⟨1, ""⟩,
        .returned (some (.errorString "body must only contain a single JSON value"))) := by
  decide!

/-! ### C3 -/

/-- C3, counterexample: three bodies that are not well-formed JSON are not
reported with an offset.  The truncated body `{"A":` is reported as a
premature end of the stream, not as "(at character 5)"; the body `{}x`, whose
first value is complete before the byte `x`, fails the check for a single
value; a string of more than 250 bytes with a line feed in it, after the
limit, is reported as too large. -/
theorem readJSON_truncated_counterexample :
    readJSON sampleCodec sampleTable (utf8 "\x7b\"A\":") (.pointer ⟨0, ""⟩) =
      (.pointer ⟨0, ""⟩,
        .returned (some (.errorString "the body contains badly-formed JSON"))) ∧
    readJSON sampleCodec sampleTable (utf8 "\x7b\x7dx") (.pointer ⟨0, ""⟩) =
      (.pointer ⟨0, ""⟩,
        .returned (some (.errorString "body must only contain a single JSON value"))) ∧
    readJSON sampleCodec sampleTable (34 :: List.replicate 300 97 ++ [10, 34])
        (.pointer ⟨0, ""⟩) =
      (.pointer ⟨0, ""⟩,
        .returned (some (.errorString "the body must not be larger that 250 bytes"))) := by
  decide!

theorem scanFirst_eq (p : List Nat) (h : p.length ≤ 250) :
    scanFirst p = scanBuffer ⟨.stateBeginValue, false, [], none, 0⟩ p 0 := by
  unfold scanFirst
  rw [firstDecoder_input, firstDecoder_scan, List.take_of_length_le h]

theorem scanFirst_take (body : List Nat) :
    scanFirst body = scanBuffer ⟨.stateBeginValue, false, [], none, 0⟩ (body.take 250) 0 := by
  unfold scanFirst
  rw [firstDecoder_input, firstDecoder_scan]

/-- The scan of a body fails at the byte after a prefix that was scanned
without an end and without an error, with the count of the bytes so far. -/
theorem scanFirst_failed_at (body p rest : List Nat) (c : Nat) (s1 : Scanner)
    (hbody : body.take 250 = p ++ c :: rest)
    (hp : scanFirst p = .exhausted s1)
    (hc : (({ s1 with bytes := s1.bytes + 1 } : Scanner).stepByte c).2 = .scanError) :
    ∃ s2 msg, scanFirst body = .failed s2 ∧
      s2.err = some (.syntaxError msg (p.length + 1)) := by
  have hlen : p.length ≤ 250 := by
    have := congrArg List.length hbody
    simp only [List.length_take, List.length_append, List.length_cons] at this
    omega
  rw [scanFirst_eq p hlen] at hp
  obtain ⟨hb, hs, -⟩ := scanBuffer_exhausted p _ 0 s1 (by simp) hp
  simp only [zero_add] at hb
  have hok := StepOK_stepByte { s1 with bytes := s1.bytes + 1 } c hs
  rcases hstep : ({ s1 with bytes := s1.bytes + 1 } : Scanner).stepByte c with ⟨s2, code⟩
  rw [hstep] at hc hok
  simp only at hc
  subst hc
  obtain ⟨msg, hmsg⟩ := hok.2.2.1 rfl
  refine ⟨s2, msg, ?_, ?_⟩
  · rw [scanFirst_take, hbody, scanBuffer_append, hp]
    simp only
    have hn : nextScanner s1 c = none := by simp [nextScanner, hstep]
    rw [scanBuffer_stop _ _ _ _ hn]
    simp [stopResult, hstep]
  · rw [hmsg]
    simp only [hb]

/-- C3 (amended). A body in which a byte within the first 250 is not
accepted by the scanner, after a prefix `p` scanned without an end and
without an error, fails with the syntax error whose offset is the number of
bytes read up to that byte and with it, `p.length + 1`.  A body of at most
250 bytes that ends inside a value fails without an offset. -/
theorem readJSON_malformed {D : Type} (codec : Codec D) (table : Nat → Bool) (body : List Nat)
    (destination : Destination D) :
    (∀ (p rest : List Nat) (c : Nat) (s1 : Scanner), body.take 250 = p ++ c :: rest →
      scanFirst p = .exhausted s1 →
      (({ s1 with bytes := s1.bytes + 1 } : Scanner).stepByte c).2 = .scanError →
      readJSON codec table body destination =
        (destination, .returned (some (.errorString
          ("the body contains badly-formed JSON (at character " ++ fmtD (p.length + 1) ++ ")"))))) ∧
    (∀ s : Scanner, body.length ≤ 250 → scanFirst body = .exhausted s →
      (s.stepByte 32).2 ≠ .scanEnd → nonSpace body = true →
      readJSON codec table body destination =
        (destination, .returned (some (.errorString "the body contains badly-formed JSON")))) := by
  constructor
  · intro p rest c s1 hbody hp hc
    obtain ⟨s2, msg, hf, he⟩ := scanFirst_failed_at body p rest c s1 hbody hp hc
    have hr : (firstDecoder body).readValue.2.2 = some (.syntaxError msg (p.length + 1)) := by
      unfold scanFirst at hf
      unfold Decoder.readValue
      rw [hf]
      exact he
    have h1 := Decode_first_failed codec body destination _ hr
    rw [readJSON_of_failed codec table body destination _ (by rw [h1]), h1]
    rfl
  · intro s hlen hs hne hns
    have hr : (firstDecoder body).readValue.2.2 = some .ErrUnexpectedEOF := by
      unfold scanFirst at hs
      unfold Decoder.readValue
      rw [hs]
      have hf := firstDecoder_final body
      rw [if_pos hlen] at hf
      have hi : (firstDecoder body).input = body := by
        rw [firstDecoder_input, List.take_of_length_le hlen]
      simp only [hf, if_true, hi, hns]
    have h1 := Decode_first_failed codec body destination _ hr
    rw [readJSON_of_failed codec table body destination _ (by rw [h1]), h1]
    rfl

/-- Bodies for C3: `{"A":x}` fails at its byte 6, and `{"A":` ends inside a value. -/
theorem readJSON_malformed_witness :
    readJSON sampleCodec sampleTable (utf8 "\x7b\"A\":x\x7d") (.pointer ⟨0, ""⟩) =
      (.pointer ⟨0, ""⟩,
        .returned (some (.errorString "the body contains badly-formed JSON (at character 6)"))) ∧
    readJSON sampleCodec sampleTable (utf8 "\x7b\"A\":") (.emptyStruct) =
      (.emptyStruct, .returned (some (.errorString "the body contains badly-formed JSON"))) :=
  ⟨(readJSON_malformed sampleCodec sampleTable (utf8 "\x7b\"A\":x\x7d") (.pointer ⟨0, ""⟩)).1
      (utf8 "\x7b\"A\":") (utf8 "\x7d") 120 ⟨.stateBeginValue, false, [.parseObjectValue], none, 5⟩
      (by decide) (by decide) (by decide),
    (readJSON_malformed sampleCodec sampleTable (utf8 "\x7b\"A\":") .emptyStruct).2
      ⟨.stateBeginValue, false, [.parseObjectValue], none, 5⟩
      (by decide) (by decide) (by decide) (by decide)⟩

/-! ### C4 -/

/-- C4. `readJSON` enforces exactly one JSON document per body: when the first
JSON value decodes into the destination, `readJSON` returns nil if and only if
the second `Decode`, on the rest of the stream, yields `io.EOF`; whenever it
yields anything else (a further value, or any other error), `readJSON` fails
with "body must only contain a single JSON value". -/
theorem readJSON_single_value {D : Type} (codec : Codec D) (table : Nat → Bool)
    (body : List Nat) (destination : Destination D)
    (h : ((firstDecoder body).Decode codec destination).2.2 = none) :
    ((readJSON codec table body destination).2 = .returned none ↔
      errorsIsNilable (((firstDecoder body).Decode codec destination).1.Decode codec
        .emptyStruct).2.2 .EOF = true) ∧
    (errorsIsNilable (((firstDecoder body).Decode codec destination).1.Decode codec
        .emptyStruct).2.2 .EOF = false →
      readJSON codec table body destination =
        (((firstDecoder body).Decode codec destination).2.1,
          .returned (some (.errorString "body must only contain a single JSON value")))) := by
  rw [readJSON_of_decoded codec table body destination h]
  cases errorsIsNilable (((firstDecoder body).Decode codec destination).1.Decode codec
      .emptyStruct).2.2 .EOF <;> simp

/-- A body for C4: `{"A":1}{"B":2}` holds two JSON values. -/
theorem readJSON_single_value_witness :
    readJSON sampleCodec sampleTable (utf8 "\x7b\"A\":1\x7d\x7b\"B\":2\x7d") (.pointer ⟨0, ""⟩) =
      (.pointer ⟨1, ""⟩,
        .returned (some (.errorString "body must only contain a single JSON value"))) :=
  (readJSON_single_value sampleCodec sampleTable (utf8 "\x7b\"A\":1\x7d\x7b\"B\":2\x7d") (.pointer ⟨0, ""⟩)
    (by decide!)).2 (by decide!)

/-! ### C5 -/

/-- C5, counterexample: two JSON objects have the key `C`, which is not a
field of the destination, and are not reported with that key.  For
`{"C":"aaa…a"}` with 300 letters `a`, `readJSON` reports the size limit; for
`{"A":"x","C":1}`, where the value of the integer field `A` is a string, it
reports the type of field `A`, the first error of the codec. -/
theorem readJSON_unknown_key_counterexample :
    readJSON sampleCodec sampleTable (utf8 "\x7b\"C\":\"" ++ List.replicate 300 97 ++ utf8 "\"\x7d")
        (.pointer ⟨0, ""⟩) =
      (.pointer ⟨0, ""⟩,
        .returned (some (.errorString "the body must not be larger that 250 bytes"))) ∧
    readJSON sampleCodec sampleTable (utf8 "\x7b\"A\":\"x\",\"C\":1\x7d") (.pointer ⟨0, ""⟩) =
      (.pointer ⟨0, ""⟩,
        .returned (some (.errorString
          "the body contains the incorrect JSON type for field \"A\""))) := by
  decide!

theorem HasPrefix_append (p rest : String) : HasPrefix (p ++ rest) p = true := by
  simp [HasPrefix, String.data_append]

theorem TrimPrefix_append (p rest : String) : TrimPrefix (p ++ rest) p = rest := by
  rw [TrimPrefix, if_pos (HasPrefix_append p rest)]
  simp [String.data_append]

/-- An error of the codec whose message is "json: unknown field" and a
remainder is in the class of the unknown fields, with that remainder. -/
theorem classify_unknown_field (rest : String) :
    classify (.errorString ("json: unknown field" ++ rest)) = some (.UnknownField rest) := by
  simp [classify, classificationRules, asSyntaxError, errorsIs, asUnmarshalTypeError,
    GoError.Error, HasPrefix_append, TrimPrefix_append]

/-! ### C6 -/

/-- C6. `readJSON` reports a type mismatch with the field name when known,
else with the offset: when the first `Decode` fails with an
`UnmarshalTypeError`, the message names its field, quoted, if the field name
is not empty, and reports its byte offset if the field name is empty. -/
theorem readJSON_type_mismatch {D : Type} (codec : Codec D) (table : Nat → Bool)
    (body : List Nat) (destination : Destination D) (value typ struct field : String)
    (offset : Int)
    (h : ((firstDecoder body).Decode codec destination).2.2 =
      some (.unmarshalTypeError value typ offset struct field)) :
    (field ≠ "" → readJSON codec table body destination =
      (((firstDecoder body).Decode codec destination).2.1,
        .returned (some (.errorString
          ("the body contains the incorrect JSON type for field " ++ Quote table field))))) ∧
    (field = "" → readJSON codec table body destination =
      (((firstDecoder body).Decode codec destination).2.1,
        .returned (some (.errorString
          ("the body contains the incorrect  JSON type (at character " ++ fmtD offset ++ ")"))))) := by
  rw [readJSON_of_failed codec table body destination _ h]
  have hc : classify (.unmarshalTypeError value typ offset struct field) =
      some (.TypeMismatch field offset) := by
    simp [classify, classificationRules, asSyntaxError, errorsIs, asUnmarshalTypeError]
  rw [hc]
  constructor
  · intro hf; simp [Classification.message, hf]
  · intro hf; simp [Classification.message, hf]

/-- A body for C6: `{"A":"not-an-integer"}` for the integer field `A`. -/
theorem readJSON_type_mismatch_witness :
    readJSON sampleCodec sampleTable (utf8 "\x7b\"A\":\"not-an-integer\"\x7d") (.pointer ⟨0, ""⟩) =
      (.pointer ⟨0, ""⟩, .returned (some (.errorString
        "the body contains the incorrect JSON type for field \"A\""))) :=
  (readJSON_type_mismatch sampleCodec sampleTable (utf8 "\x7b\"A\":\"not-an-integer\"\x7d")
    (.pointer ⟨0, ""⟩) "string" "int" "Input" "A" 21 (by decide!)).1 (by decide)

/-! ### C8 -/

/-- C8. `readJSON` classifies a failed first decode by first match in the
fixed order syntax error, premature end of stream, type mismatch, empty body,
unknown field, size limit: when the first `Decode` fails with `err` and `cls`
is the class of the first rule that matches `err` in that order, `readJSON`
returns the message of `cls`. -/
theorem readJSON_classification {D : Type} (codec : Codec D) (table : Nat → Bool)
    (body : List Nat) (destination : Destination D) (err : GoError) (cls : Classification)
    (h : ((firstDecoder body).Decode codec destination).2.2 = some err)
    (hcls : classify err = some cls) :
    readJSON codec table body destination =
      (((firstDecoder body).Decode codec destination).2.1,
        .returned (some (.errorString (cls.message table)))) := by
  rw [readJSON_of_failed codec table body destination err h, hcls]

/-- A body for C8: the failure on `{"A":x}` is a syntax error at offset 6. -/
theorem readJSON_classification_witness :
    readJSON sampleCodec sampleTable (utf8 "\x7b\"A\":x\x7d") (.pointer ⟨0, ""⟩) =
      (.pointer ⟨0, ""⟩,
        .returned (some (.errorString "the body contains badly-formed JSON (at character 6)"))) :=
  readJSON_classification sampleCodec sampleTable (utf8 "\x7b\"A\":x\x7d") (.pointer ⟨0, ""⟩)
    (.syntaxError "invalid character 'x' looking for beginning of value" 6) (.MalformedSyntax 6)
    (by decide!) (by decide)

/-- An error that matches two rules is classified by the earlier one: an
error that wraps `io.EOF` and whose message starts with "json: unknown field"
is an empty body, and one that wraps a size-limit error with such a message
is an unknown field. -/
theorem classify_earliest :
    classify (.wrapError "json: unknown field \"A\"" .EOF) = some .EmptyBody ∧
    classify (.wrapError "json: unknown field \"A\"" (.maxBytesError 250)) =
      some (.UnknownField " \"A\"") := by
  decide

/-! ### C7 -/

/-- C7, counterexample: with a nil destination and an empty body `readJSON`
returns the error for an empty body; it does not panic. -/
theorem readJSON_invalid_destination_counterexample :
    readJSON sampleCodec sampleTable [] (.invalid .nilValue) =
      (.invalid .nilValue, .returned (some (.errorString "the body must not be empty"))) := by
  decide

theorem stopResult_failed (s : Scanner) (c n : Nat) (s1 : Scanner) (hs : s.step ≠ .stateError)
    (he : SyntaxOrNone s.err) (h : stopResult s c n = .failed s1) : SyntaxOrNone s1.err := by
  have hok := StepOK_stepByte { s with bytes := s.bytes + 1 } c hs
  unfold stopResult at h
  rcases hstep : ({ s with bytes := s.bytes + 1 } : Scanner).stepByte c with ⟨t, code⟩
  rw [hstep] at h hok
  cases code <;> simp only [ScanResult.failed.injEq, reduceCtorEq] at h <;> subst h <;>
    exact hok.2.1 he

/-- A scan that fails leaves a syntax error, or none, in the scanner. -/
theorem scanBuffer_failed (bs : List Nat) (s : Scanner) (n : Nat) (s1 : Scanner)
    (hs : s.step ≠ .stateError) (he : SyntaxOrNone s.err) (h : scanBuffer s bs n = .failed s1) :
    SyntaxOrNone s1.err := by
  induction bs generalizing s n with
  | nil => simp [scanBuffer] at h
  | cons c cs ih =>
    cases hn : nextScanner s c with
    | none =>
      rw [scanBuffer_stop _ _ _ _ hn] at h
      exact stopResult_failed s c n s1 hs he h
    | some t =>
      rw [scanBuffer_next _ _ _ _ _ hn] at h
      obtain ⟨-, h2, h3⟩ := nextScanner_ok s c t hs hn
      exact ih t (n + 1) h2 (h3 he) h

/-- The errors of the first `readValue` of `readJSON`. -/
theorem readValue_first_error (body : List Nat) (e : GoError)
    (h : (firstDecoder body).readValue.2.2 = some e) :
    (∃ msg off, e = .syntaxError msg off) ∨ e = .EOF ∨ e = .ErrUnexpectedEOF ∨
      e = .maxBytesError 250 := by
  unfold Decoder.readValue at h
  cases hs : scanBuffer (firstDecoder body).scan.reset (firstDecoder body).input 0 with
  | value n s => rw [hs] at h; simp at h
  | failed s =>
    rw [hs] at h
    simp only at h
    rcases scanBuffer_failed _ _ _ _ (by simp [firstDecoder_scan]) (Or.inl rfl) hs with h1 | h1
    · rw [h1] at h; simp at h
    · obtain ⟨msg, off, h1⟩ := h1
      rw [h1] at h
      simp only [Option.some.injEq] at h
      exact Or.inl ⟨msg, off, h.symm⟩
  | exhausted s =>
    rw [hs] at h
    simp only at h
    have hf := firstDecoder_final body
    by_cases hlen : body.length ≤ 250
    · rw [if_pos hlen] at hf
      rw [if_pos hf] at h
      rcases hst : s.stepByte 32 with ⟨s1, code⟩
      rw [hst] at h
      by_cases hns : nonSpace (firstDecoder body).input = true
      · cases code <;> simp [hns] at h <;> simp [← h]
      · cases code <;> simp [hns] at h <;> simp [← h]
    · rw [if_neg hlen] at hf
      rw [if_neg (by rw [hf]; simp)] at h
      simp only [hf, Option.some.injEq] at h
      simp [← h]

theorem classify_invalidUnmarshalError (t : BadDestination) :
    classify (.invalidUnmarshalError t) = none := by
  cases t <;>
    simp [classify, classificationRules, asSyntaxError, errorsIs, asUnmarshalTypeError,
      asMaxBytesError, GoError.Error, HasPrefix, List.isPrefixOf]

/-- With an invalid destination, `readJSON` panics when the decoder reads a
first value, and returns the failure of reading it otherwise. -/
theorem readJSON_of_invalid {D : Type} (codec : Codec D) (table : Nat → Bool)
    (body : List Nat) (t : BadDestination) :
    ((firstDecoder body).readValue.2.2 = none →
      readJSON codec table body (.invalid t) =
        (.invalid t, .panicked (.invalidUnmarshalError t))) ∧
    ((firstDecoder body).readValue.2.2 ≠ none →
      ∃ msg, readJSON codec table body (.invalid t) =
        (.invalid t, .returned (some (.errorString msg)))) := by
  constructor
  · intro h
    have hd := Decode_first_value codec body (.invalid t) (firstDecoder body).readValue.2.1
      (by rw [← h])
    simp only [unmarshal] at hd
    rw [readJSON_of_failed codec table body (.invalid t) (.invalidUnmarshalError t) (by rw [hd]),
      hd, classify_invalidUnmarshalError]
    rfl
  · intro h
    obtain ⟨e, he⟩ := Option.ne_none_iff_exists'.1 h
    have h1 := Decode_first_failed codec body (.invalid t) e he
    rw [readJSON_of_failed codec table body (.invalid t) e (by rw [h1]), h1]
    rcases readValue_first_error body e he with ⟨msg, off, rfl⟩ | rfl | rfl | rfl
    · exact ⟨_, rfl⟩
    · exact ⟨_, rfl⟩
    · exact ⟨_, rfl⟩
    · exact ⟨_, rfl⟩

/-! ### C9 -/

theorem runNext_append (s : Scanner) (a b : List Nat) :
    runNext s (a ++ b) = (runNext s a).bind fun s1 => runNext s1 b := by
  induction a generalizing s with
  | nil => rfl
  | cons c cs ih =>
    simp only [List.cons_append, runNext]
    cases nextScanner s c with
    | none => rfl
    | some s1 => exact ih s1

theorem scanBuffer_runNext (s s1 : Scanner) (a rest : List Nat) (n : Nat)
    (h : runNext s a = some s1) :
    scanBuffer s (a ++ rest) n = scanBuffer s1 rest (n + a.length) := by
  induction a generalizing s n with
  | nil =>
    simp only [runNext, Option.some.injEq] at h
    subst h
    rfl
  | cons c cs ih =>
    simp only [runNext] at h
    cases hn : nextScanner s c with
    | none => rw [hn] at h; cases h
    | some t =>
      rw [hn] at h
      rw [List.cons_append, scanBuffer_next _ _ _ _ _ hn, ih t (n + 1) h, List.length_cons]
      congr 1
      omega

/-- A step that returns an ordinary code is a round of the loop. -/
theorem nextScanner_of_step (s t : Scanner) (c : Nat) (code : ScanCode)
    (h : ({ s with bytes := s.bytes + 1 } : Scanner).stepByte c = (t, code))
    (h1 : code ≠ .scanEnd) (h2 : code ≠ .scanEndObject) (h3 : code ≠ .scanEndArray)
    (h4 : code ≠ .scanError) : nextScanner s c = some t := by
  unfold nextScanner
  rw [h]
  cases code <;> simp_all


theorem runNext_seq (s s1 s2 : Scanner) (a b : List Nat) (h1 : runNext s a = some s1)
    (h2 : runNext s1 b = some s2) : runNext s (a ++ b) = some s2 := by
  rw [runNext_append, h1]
  exact h2

theorem runNext_one (s s1 : Scanner) (c : Nat) (h : nextScanner s c = some s1) :
    runNext s [c] = some s1 := by
  simp [runNext, h]

theorem runNext_cons (s s1 s2 : Scanner) (c : Nat) (cs : List Nat)
    (h1 : nextScanner s c = some s1) (h2 : runNext s1 cs = some s2) :
    runNext s (c :: cs) = some s2 := by
  simp [runNext, h1, h2]

theorem IsWs_isSpace (c : Nat) (h : c = 32 ∨ c = 9 ∨ c = 10 ∨ c = 13) : isSpace c = true := by
  rcases h with rfl | rfl | rfl | rfl <;> decide

/-- Whitespace where a value or a key is expected is skipped. -/
theorem next_space_begin (st : StepFn) (et : Bool) (ps : List ParseState) (e : Option GoError)
    (b : Int) (c : Nat) (hst : BeginsValue st ∨ BeginsKey st) (hc : isSpace c = true) :
    nextScanner ⟨st, et, ps, e, b⟩ c = some ⟨st, et, ps, e, b + 1⟩ := by
  rcases hst with (rfl | rfl) | (rfl | rfl) <;>
    simp [nextScanner, Scanner.stepByte, stateBeginValue, stateBeginValueOrEmpty,
      stateBeginString, stateBeginStringOrEmpty, hc]

theorem run_space_begin (st : StepFn) (et : Bool) (ps : List ParseState) (e : Option GoError)
    (b : Int) (ws : List Nat) (hst : BeginsValue st ∨ BeginsKey st) (hws : IsWs ws) :
    ∃ b1, runNext ⟨st, et, ps, e, b⟩ ws = some ⟨st, et, ps, e, b1⟩ := by
  induction ws generalizing b with
  | nil => exact ⟨b, rfl⟩
  | cons c cs ih =>
    obtain ⟨b1, h1⟩ := ih (b + 1) (fun x hx => hws x (List.mem_cons_of_mem _ hx))
    exact ⟨b1, runNext_cons _ _ _ _ _
      (next_space_begin st et ps e b c hst (IsWs_isSpace c (hws c (List.mem_cons_self _ _)))) h1⟩

/-- In a state after a value, a byte that does not continue a number is
handled by `stateEndValue`. -/
theorem stepByte_after (st : StepFn) (et : Bool) (ps : List ParseState) (e : Option GoError)
    (b : Int) (c : Nat) (hst : AfterValue st) (h1 : isDigit c = false) (h2 : c ≠ 46)
    (h3 : c ≠ 101) (h4 : c ≠ 69) :
    (⟨st, et, ps, e, b⟩ : Scanner).stepByte c = stateEndValue ⟨st, et, ps, e, b⟩ c := by
  rcases hst with rfl | rfl | rfl | rfl | rfl <;>
    simp [Scanner.stepByte, state0, state1, stateDot0, stateE0, h1, h2, h3, h4]

/-- Whitespace after a value inside an array or an object is skipped. -/
theorem next_space_after (st : StepFn) (et : Bool) (p : ParseState) (ps : List ParseState)
    (e : Option GoError) (b : Int) (c : Nat) (hst : AfterValue st) (hc : isSpace c = true) :
    nextScanner ⟨st, et, p :: ps, e, b⟩ c = some ⟨.stateEndValue, et, p :: ps, e, b + 1⟩ := by
  have hd : isDigit c = false ∧ c ≠ 46 ∧ c ≠ 101 ∧ c ≠ 69 := by
    simp only [isSpace, Bool.and_eq_true, Bool.or_eq_true, decide_eq_true_eq] at hc
    rcases hc.2 with ((rfl | rfl) | rfl) | rfl <;> decide
  apply nextScanner_of_step _ _ _ .scanSkipSpace _ (by decide) (by decide) (by decide) (by decide)
  rw [stepByte_after st et (p :: ps) e (b + 1) c hst hd.1 hd.2.1 hd.2.2.1 hd.2.2.2]
  simp [stateEndValue, hc]

theorem run_space_after (st : StepFn) (et : Bool) (p : ParseState) (ps : List ParseState)
    (e : Option GoError) (b : Int) (ws : List Nat) (hst : AfterValue st) (hws : IsWs ws) :
    ∃ st1 b1, AfterValue st1 ∧
      runNext ⟨st, et, p :: ps, e, b⟩ ws = some ⟨st1, et, p :: ps, e, b1⟩ := by
  induction ws generalizing st b with
  | nil => exact ⟨st, b, hst, rfl⟩
  | cons c cs ih =>
    obtain ⟨st1, b1, h0, h1⟩ := ih .stateEndValue (b + 1) (Or.inl rfl)
      (fun x hx => hws x (List.mem_cons_of_mem _ hx))
    exact ⟨st1, b1, h0, runNext_cons _ _ _ _ _
      (next_space_after st et p ps e b c hst (IsWs_isSpace c (hws c (List.mem_cons_self _ _)))) h1⟩

/-! #### Strings -/

theorem next_quote_begin (st : StepFn) (et : Bool) (ps : List ParseState) (e : Option GoError)
    (b : Int) (hst : BeginsValue st ∨ BeginsKey st) :
    nextScanner ⟨st, et, ps, e, b⟩ 34 = some ⟨.stateInString, et, ps, e, b + 1⟩ := by
  rcases hst with (rfl | rfl) | (rfl | rfl) <;>
    simp [nextScanner, Scanner.stepByte, stateBeginValue, stateBeginValueOrEmpty,
      stateBeginString, stateBeginStringOrEmpty, isSpace]

theorem next_inString (st1 : StepFn) (et : Bool) (ps : List ParseState) (e : Option GoError)
    (b : Int) (c : Nat) (h : (⟨.stateInString, et, ps, e, b + 1⟩ : Scanner).stepByte c =
      (⟨st1, et, ps, e, b + 1⟩, .scanContinue)) :
    nextScanner ⟨.stateInString, et, ps, e, b⟩ c = some ⟨st1, et, ps, e, b + 1⟩ :=
  nextScanner_of_step _ _ _ .scanContinue h (by decide) (by decide) (by decide) (by decide)

theorem run_chars (et : Bool) (ps : List ParseState) (e : Option GoError) (b : Int)
    (cs : List Nat) (h : JChars cs) :
    ∃ b1, runNext ⟨.stateInString, et, ps, e, b⟩ cs = some ⟨.stateInString, et, ps, e, b1⟩ := by
  induction h generalizing b with
  | nil => exact ⟨b, rfl⟩
  | plain c cs h1 h2 h3 _ ih =>
    obtain ⟨b1, hb⟩ := ih (b + 1)
    refine ⟨b1, runNext_cons _ _ _ _ _ ?_ hb⟩
    apply nextScanner_of_step _ _ _ .scanContinue _ (by decide) (by decide) (by decide) (by decide)
    have : ¬ c < 32 := by omega
    simp [Scanner.stepByte, stateInString, h2, h3, this]
  | escape c cs h1 _ ih =>
    obtain ⟨b1, hb⟩ := ih (b + 1 + 1)
    refine ⟨b1, runNext_cons _ ⟨.stateInStringEsc, et, ps, e, b + 1⟩ _ _ _ ?_
      (runNext_cons _ _ _ _ _ ?_ hb)⟩
    · apply nextScanner_of_step _ _ _ .scanContinue _ (by decide) (by decide) (by decide)
        (by decide)
      simp [Scanner.stepByte, stateInString]
    · apply nextScanner_of_step _ _ _ .scanContinue _ (by decide) (by decide) (by decide)
        (by decide)
      rcases h1 with rfl | rfl | rfl | rfl | rfl | rfl | rfl | rfl <;>
        simp [Scanner.stepByte, stateInStringEsc]
  | unicode h1 h2 h3 h4 cs hh1 hh2 hh3 hh4 _ ih =>
    obtain ⟨b1, hb⟩ := ih (b + 1 + 1 + 1 + 1 + 1 + 1)
    refine ⟨b1, runNext_cons _ ⟨.stateInStringEsc, et, ps, e, b + 1⟩ _ _ _ ?_
      (runNext_cons _ ⟨.stateInStringEscU, et, ps, e, b + 1 + 1⟩ _ _ _ ?_
      (runNext_cons _ ⟨.stateInStringEscU1, et, ps, e, b + 1 + 1 + 1⟩ _ _ _ ?_
      (runNext_cons _ ⟨.stateInStringEscU12, et, ps, e, b + 1 + 1 + 1 + 1⟩ _ _ _ ?_
      (runNext_cons _ ⟨.stateInStringEscU123, et, ps, e, b + 1 + 1 + 1 + 1 + 1⟩ _ _ _ ?_
      (runNext_cons _ _ _ _ _ ?_ hb)))))⟩
    · apply nextScanner_of_step _ _ _ .scanContinue _ (by decide) (by decide) (by decide)
        (by decide)
      simp [Scanner.stepByte, stateInString]
    · apply nextScanner_of_step _ _ _ .scanContinue _ (by decide) (by decide) (by decide)
        (by decide)
      simp [Scanner.stepByte, stateInStringEsc]
    · apply nextScanner_of_step _ _ _ .scanContinue _ (by decide) (by decide) (by decide)
        (by decide)
      simp [Scanner.stepByte, stateInStringEscHex, hh1]
    · apply nextScanner_of_step _ _ _ .scanContinue _ (by decide) (by decide) (by decide)
        (by decide)
      simp [Scanner.stepByte, stateInStringEscHex, hh2]
    · apply nextScanner_of_step _ _ _ .scanContinue _ (by decide) (by decide) (by decide)
        (by decide)
      simp [Scanner.stepByte, stateInStringEscHex, hh3]
    · apply nextScanner_of_step _ _ _ .scanContinue _ (by decide) (by decide) (by decide)
        (by decide)
      simp [Scanner.stepByte, stateInStringEscHex, hh4]

/-- The scanner reads a JSON string where a value or a key is expected. -/
theorem run_string (st : StepFn) (et : Bool) (ps : List ParseState) (e : Option GoError)
    (b : Int) (k : List Nat) (hst : BeginsValue st ∨ BeginsKey st) (hk : JString k) :
    ∃ b1, runNext ⟨st, et, ps, e, b⟩ k = some ⟨.stateEndValue, et, ps, e, b1⟩ := by
  obtain ⟨cs, hcs, rfl⟩ := hk
  obtain ⟨b1, hb⟩ := run_chars et ps e (b + 1) cs hcs
  refine ⟨b1 + 1, runNext_cons _ _ _ _ _ (next_quote_begin st et ps e b hst)
    (runNext_seq _ _ _ _ _ hb (runNext_one _ _ _ ?_))⟩
  apply nextScanner_of_step _ _ _ .scanContinue _ (by decide) (by decide) (by decide) (by decide)
  simp [Scanner.stepByte, stateInString]

/-! #### Literals -/

theorem run_null (st : StepFn) (et : Bool) (ps : List ParseState) (e : Option GoError)
    (b : Int) (hst : BeginsValue st) :
    ∃ b1, runNext ⟨st, et, ps, e, b⟩ [110, 117, 108, 108] =
      some ⟨.stateEndValue, et, ps, e, b1⟩ := by
  rcases hst with rfl | rfl <;>
    exact ⟨b + 1 + 1 + 1 + 1, by simp [runNext, nextScanner, Scanner.stepByte, stateBeginValue,
      stateBeginValueOrEmpty, stateLiteral, isSpace]⟩

theorem run_true (st : StepFn) (et : Bool) (ps : List ParseState) (e : Option GoError)
    (b : Int) (hst : BeginsValue st) :
    ∃ b1, runNext ⟨st, et, ps, e, b⟩ [116, 114, 117, 101] =
      some ⟨.stateEndValue, et, ps, e, b1⟩ := by
  rcases hst with rfl | rfl <;>
    exact ⟨b + 1 + 1 + 1 + 1, by simp [runNext, nextScanner, Scanner.stepByte, stateBeginValue,
      stateBeginValueOrEmpty, stateLiteral, isSpace]⟩

theorem run_false (st : StepFn) (et : Bool) (ps : List ParseState) (e : Option GoError)
    (b : Int) (hst : BeginsValue st) :
    ∃ b1, runNext ⟨st, et, ps, e, b⟩ [102, 97, 108, 115, 101] =
      some ⟨.stateEndValue, et, ps, e, b1⟩ := by
  rcases hst with rfl | rfl <;>
    exact ⟨b + 1 + 1 + 1 + 1 + 1, by simp [runNext, nextScanner, Scanner.stepByte, stateBeginValue,
      stateBeginValueOrEmpty, stateLiteral, isSpace]⟩


/-! #### Numbers -/

theorem run_digits (st : StepFn) (et : Bool) (ps : List ParseState) (e : Option GoError)
    (b : Int) (ds : List Nat) (hst : st = .state1 ∨ st = .stateDot0 ∨ st = .stateE0)
    (hds : IsDigits ds) :
    ∃ b1, runNext ⟨st, et, ps, e, b⟩ ds = some ⟨st, et, ps, e, b1⟩ := by
  induction ds generalizing b with
  | nil => exact ⟨b, rfl⟩
  | cons c cs ih =>
    obtain ⟨b1, hb⟩ := ih (b + 1) (fun x hx => hds x (List.mem_cons_of_mem _ hx))
    have hc := hds c (List.mem_cons_self _ _)
    have hd : isDigit c = true := by simp [isDigit, hc.1, hc.2]
    refine ⟨b1, runNext_cons _ _ _ _ _ ?_ hb⟩
    apply nextScanner_of_step _ _ _ .scanContinue _ (by decide) (by decide) (by decide) (by decide)
    rcases hst with rfl | rfl | rfl <;> simp [Scanner.stepByte, state1, stateDot0, stateE0, hd]

theorem stateBeginValue_digit (s : Scanner) (d : Nat) (h1 : 49 ≤ d) (h2 : d ≤ 57) :
    stateBeginValue s d = ({ s with step := .state1 }, .scanBeginLiteral) := by
  have hsp : ¬ isSpace d = true := by
    simp only [isSpace, Bool.and_eq_true, Bool.or_eq_true, decide_eq_true_eq]
    omega
  unfold stateBeginValue
  rw [if_neg hsp]
  split
  all_goals first | omega | simp [h1, h2]

/-- The integer part, after an optional minus sign. -/
theorem run_int (st : StepFn) (et : Bool) (ps : List ParseState) (e : Option GoError)
    (b : Int) (i : List Nat) (hst : BeginsValue st ∨ st = .stateNeg) (hi : JInt i) :
    ∃ st1 b1, (st1 = .state0 ∨ st1 = .state1) ∧
      runNext ⟨st, et, ps, e, b⟩ i = some ⟨st1, et, ps, e, b1⟩ := by
  rcases hi with rfl | ⟨d, ds, hd1, hd2, hds, rfl⟩
  · refine ⟨.state0, b + 1, Or.inl rfl, ?_⟩
    rcases hst with (rfl | rfl) | rfl <;>
      simp [runNext, nextScanner, Scanner.stepByte, stateBeginValue, stateBeginValueOrEmpty,
        stateNeg, isSpace]
  · obtain ⟨b1, hb⟩ := run_digits .state1 et ps e (b + 1) ds (Or.inl rfl) hds
    refine ⟨.state1, b1, Or.inr rfl, runNext_cons _ _ _ _ _ ?_ hb⟩
    have h93 : d ≠ 93 := by omega
    have h48 : d ≠ 48 := by omega
    have hsp : isSpace d = false := by
      simp only [isSpace, Bool.and_eq_false_imp, decide_eq_true_eq, Bool.or_eq_false_iff,
        decide_eq_false_iff_not]
      omega
    rcases hst with (rfl | rfl) | rfl
    · apply nextScanner_of_step _ _ _ .scanBeginLiteral _ (by decide) (by decide) (by decide)
        (by decide)
      simp only [Scanner.stepByte]
      rw [stateBeginValue_digit _ d hd1 hd2]
    · apply nextScanner_of_step _ _ _ .scanBeginLiteral _ (by decide) (by decide) (by decide)
        (by decide)
      simp only [Scanner.stepByte, stateBeginValueOrEmpty, hsp, h93, Bool.false_eq_true, if_false]
      rw [stateBeginValue_digit _ d hd1 hd2]
    · apply nextScanner_of_step _ _ _ .scanContinue _ (by decide) (by decide) (by decide)
        (by decide)
      simp [Scanner.stepByte, stateNeg, h48, hd1, hd2]

theorem run_frac (st : StepFn) (et : Bool) (ps : List ParseState) (e : Option GoError)
    (b : Int) (f : List Nat) (hst : st = .state0 ∨ st = .state1) (hf : JFrac f) :
    ∃ st1 b1, (st1 = .state0 ∨ st1 = .state1 ∨ st1 = .stateDot0) ∧
      runNext ⟨st, et, ps, e, b⟩ f = some ⟨st1, et, ps, e, b1⟩ := by
  rcases hf with rfl | ⟨d, ds, hd1, hd2, hds, rfl⟩
  · rcases hst with rfl | rfl
    · exact ⟨_, b, Or.inl rfl, rfl⟩
    · exact ⟨_, b, Or.inr (Or.inl rfl), rfl⟩
  · obtain ⟨b1, hb⟩ := run_digits .stateDot0 et ps e (b + 1 + 1) ds (Or.inr (Or.inl rfl)) hds
    have hd : isDigit d = true := by simp [isDigit, hd1, hd2]
    refine ⟨.stateDot0, b1, Or.inr (Or.inr rfl),
      runNext_cons _ ⟨.stateDot, et, ps, e, b + 1⟩ _ _ _ ?_ (runNext_cons _ _ _ _ _ ?_ hb)⟩
    · apply nextScanner_of_step _ _ _ .scanContinue _ (by decide) (by decide) (by decide)
        (by decide)
      rcases hst with rfl | rfl <;> simp [Scanner.stepByte, state0, state1, isDigit]
    · apply nextScanner_of_step _ _ _ .scanContinue _ (by decide) (by decide) (by decide)
        (by decide)
      simp [Scanner.stepByte, stateDot, hd]

theorem run_exp (st : StepFn) (et : Bool) (ps : List ParseState) (e : Option GoError)
    (b : Int) (x : List Nat) (hst : st = .state0 ∨ st = .state1 ∨ st = .stateDot0)
    (hx : JExp x) :
    ∃ st1 b1, AfterValue st1 ∧ runNext ⟨st, et, ps, e, b⟩ x = some ⟨st1, et, ps, e, b1⟩ := by
  rcases hx with rfl | ⟨c, sign, d, ds, hc, hsign, hd1, hd2, hds, rfl⟩
  · refine ⟨st, b, ?_, rfl⟩
    rcases hst with rfl | rfl | rfl <;> simp [AfterValue]
  · obtain ⟨b1, hb⟩ := run_digits .stateE0 et ps e (b + 1 + (sign.length : Int) + 1) ds
      (Or.inr (Or.inr rfl)) hds
    have hd : isDigit d = true := by simp [isDigit, hd1, hd2]
    have hd43 : d ≠ 43 := by omega
    have hd45 : d ≠ 45 := by omega
    refine ⟨.stateE0, b1, by simp [AfterValue],
      runNext_cons _ ⟨.stateE, et, ps, e, b + 1⟩ _ _ _ ?_ ?_⟩
    · apply nextScanner_of_step _ _ _ .scanContinue _ (by decide) (by decide) (by decide)
        (by decide)
      rcases hc with rfl | rfl <;> rcases hst with rfl | rfl | rfl <;>
        simp [Scanner.stepByte, state0, state1, stateDot0, isDigit]
    · rcases hsign with rfl | rfl | rfl
      · refine runNext_cons _ _ _ _ _ ?_ (by simpa using hb)
        apply nextScanner_of_step _ _ _ .scanContinue _ (by decide) (by decide) (by decide)
          (by decide)
        simp [Scanner.stepByte, stateE, stateESign, hd, hd43, hd45]
      · refine runNext_cons _ ⟨.stateESign, et, ps, e, b + 1 + 1⟩ _ _ _ ?_
          (runNext_cons _ _ _ _ _ ?_ (by simpa using hb))
        · apply nextScanner_of_step _ _ _ .scanContinue _ (by decide) (by decide) (by decide)
            (by decide)
          simp [Scanner.stepByte, stateE]
        · apply nextScanner_of_step _ _ _ .scanContinue _ (by decide) (by decide) (by decide)
            (by decide)
          simp [Scanner.stepByte, stateESign, hd]
      · refine runNext_cons _ ⟨.stateESign, et, ps, e, b + 1 + 1⟩ _ _ _ ?_
          (runNext_cons _ _ _ _ _ ?_ (by simpa using hb))
        · apply nextScanner_of_step _ _ _ .scanContinue _ (by decide) (by decide) (by decide)
            (by decide)
          simp [Scanner.stepByte, stateE]
        · apply nextScanner_of_step _ _ _ .scanContinue _ (by decide) (by decide) (by decide)
            (by decide)
          simp [Scanner.stepByte, stateESign, hd]

/-- The scanner reads a JSON number where a value is expected. -/
theorem run_number (st : StepFn) (et : Bool) (ps : List ParseState) (e : Option GoError)
    (b : Int) (s : List Nat) (hst : BeginsValue st) (hs : JNumber s) :
    ∃ st1 b1, AfterValue st1 ∧ runNext ⟨st, et, ps, e, b⟩ s = some ⟨st1, et, ps, e, b1⟩ := by
  obtain ⟨minus, i, f, x, hminus, hi, hf, hx, rfl⟩ := hs
  have key : ∀ st0 b0, (BeginsValue st0 ∨ st0 = .stateNeg) →
      ∃ st1 b1, AfterValue st1 ∧
        runNext ⟨st0, et, ps, e, b0⟩ (i ++ f ++ x) = some ⟨st1, et, ps, e, b1⟩ := by
    intro st0 b0 h0
    obtain ⟨st1, b1, h1, r1⟩ := run_int st0 et ps e b0 i h0 hi
    obtain ⟨st2, b2, h2, r2⟩ := run_frac st1 et ps e b1 f h1 hf
    obtain ⟨st3, b3, h3, r3⟩ := run_exp st2 et ps e b2 x h2 hx
    exact ⟨st3, b3, h3, runNext_seq _ _ _ _ _ (runNext_seq _ _ _ _ _ r1 r2) r3⟩
  rcases hminus with rfl | rfl
  · simpa using key st b (Or.inl hst)
  · obtain ⟨st1, b1, h1, r1⟩ := key .stateNeg (b + 1) (Or.inr rfl)
    refine ⟨st1, b1, h1, ?_⟩
    rw [List.append_assoc, List.append_assoc, List.singleton_append]
    rw [List.append_assoc] at r1
    refine runNext_cons _ _ _ _ _ ?_ r1
    apply nextScanner_of_step _ _ _ .scanBeginLiteral _ (by decide) (by decide) (by decide)
      (by decide)
    rcases hst with rfl | rfl <;>
      simp [Scanner.stepByte, stateBeginValue, stateBeginValueOrEmpty, isSpace]

/-! #### Separators and brackets -/

theorem not_continues (c : Nat) (h : c = 58 ∨ c = 44 ∨ c = 125 ∨ c = 93) :
    isDigit c = false ∧ c ≠ 46 ∧ c ≠ 101 ∧ c ≠ 69 := by
  rcases h with rfl | rfl | rfl | rfl <;> decide

theorem next_colon (st : StepFn) (et : Bool) (ps : List ParseState) (e : Option GoError)
    (b : Int) (hst : AfterValue st) :
    nextScanner ⟨st, et, .parseObjectKey :: ps, e, b⟩ 58 =
      some ⟨.stateBeginValue, et, .parseObjectValue :: ps, e, b + 1⟩ := by
  obtain ⟨h1, h2, h3, h4⟩ := not_continues 58 (by simp)
  apply nextScanner_of_step _ _ _ .scanObjectKey _ (by decide) (by decide) (by decide) (by decide)
  rw [stepByte_after st et _ e (b + 1) 58 hst h1 h2 h3 h4]
  simp [stateEndValue, isSpace]

theorem next_comma_object (st : StepFn) (et : Bool) (ps : List ParseState) (e : Option GoError)
    (b : Int) (hst : AfterValue st) :
    nextScanner ⟨st, et, .parseObjectValue :: ps, e, b⟩ 44 =
      some ⟨.stateBeginString, et, .parseObjectKey :: ps, e, b + 1⟩ := by
  obtain ⟨h1, h2, h3, h4⟩ := not_continues 44 (by simp)
  apply nextScanner_of_step _ _ _ .scanObjectValue _ (by decide) (by decide) (by decide)
    (by decide)
  rw [stepByte_after st et _ e (b + 1) 44 hst h1 h2 h3 h4]
  simp [stateEndValue, isSpace]

theorem next_comma_array (st : StepFn) (et : Bool) (ps : List ParseState) (e : Option GoError)
    (b : Int) (hst : AfterValue st) :
    nextScanner ⟨st, et, .parseArrayValue :: ps, e, b⟩ 44 =
      some ⟨.stateBeginValue, et, .parseArrayValue :: ps, e, b + 1⟩ := by
  obtain ⟨h1, h2, h3, h4⟩ := not_continues 44 (by simp)
  apply nextScanner_of_step _ _ _ .scanArrayValue _ (by decide) (by decide) (by decide)
    (by decide)
  rw [stepByte_after st et _ e (b + 1) 44 hst h1 h2 h3 h4]
  simp [stateEndValue, isSpace]

theorem next_open_object (st : StepFn) (et : Bool) (ps : List ParseState) (e : Option GoError)
    (b : Int) (hst : BeginsValue st) (hdepth : ps.length + 1 ≤ maxNestingDepth) :
    nextScanner ⟨st, et, ps, e, b⟩ 123 =
      some ⟨.stateBeginStringOrEmpty, et, .parseObjectKey :: ps, e, b + 1⟩ := by
  apply nextScanner_of_step _ _ _ .scanBeginObject _ (by decide) (by decide) (by decide)
    (by decide)
  rcases hst with rfl | rfl <;>
    simp [Scanner.stepByte, stateBeginValue, stateBeginValueOrEmpty, isSpace,
      Scanner.pushParseState, hdepth]

theorem next_open_array (st : StepFn) (et : Bool) (ps : List ParseState) (e : Option GoError)
    (b : Int) (hst : BeginsValue st) (hdepth : ps.length + 1 ≤ maxNestingDepth) :
    nextScanner ⟨st, et, ps, e, b⟩ 91 =
      some ⟨.stateBeginValueOrEmpty, et, .parseArrayValue :: ps, e, b + 1⟩ := by
  apply nextScanner_of_step _ _ _ .scanBeginArray _ (by decide) (by decide) (by decide)
    (by decide)
  rcases hst with rfl | rfl <;>
    simp [Scanner.stepByte, stateBeginValue, stateBeginValueOrEmpty, isSpace,
      Scanner.pushParseState, hdepth]

/-- The closing brace of an object inside an array or an object. -/
theorem next_close_object (st : StepFn) (et : Bool) (p : ParseState) (ps : List ParseState)
    (e : Option GoError) (b : Int) (hst : AfterValue st) :
    nextScanner ⟨st, et, .parseObjectValue :: p :: ps, e, b⟩ 125 =
      some ⟨.stateEndValue, et, p :: ps, e, b + 1⟩ := by
  obtain ⟨h1, h2, h3, h4⟩ := not_continues 125 (by simp)
  unfold nextScanner
  rw [stepByte_after st et _ e (b + 1) 125 hst h1 h2 h3 h4]
  simp [stateEndValue, isSpace, Scanner.popParseState]

theorem next_close_empty_object (et : Bool) (p : ParseState) (ps : List ParseState)
    (e : Option GoError) (b : Int) :
    nextScanner ⟨.stateBeginStringOrEmpty, et, .parseObjectKey :: p :: ps, e, b⟩ 125 =
      some ⟨.stateEndValue, et, p :: ps, e, b + 1⟩ := by
  simp [nextScanner, Scanner.stepByte, stateBeginStringOrEmpty, stateEndValue, isSpace,
    Scanner.popParseState]

/-- The closing bracket of an array inside an array or an object. -/
theorem next_close_array (st : StepFn) (et : Bool) (p : ParseState) (ps : List ParseState)
    (e : Option GoError) (b : Int) (hst : AfterValue st) :
    nextScanner ⟨st, et, .parseArrayValue :: p :: ps, e, b⟩ 93 =
      some ⟨.stateEndValue, et, p :: ps, e, b + 1⟩ := by
  obtain ⟨h1, h2, h3, h4⟩ := not_continues 93 (by simp)
  unfold nextScanner
  rw [stepByte_after st et _ e (b + 1) 93 hst h1 h2 h3 h4]
  simp [stateEndValue, isSpace, Scanner.popParseState]

theorem next_close_empty_array (et : Bool) (p : ParseState) (ps : List ParseState)
    (e : Option GoError) (b : Int) :
    nextScanner ⟨.stateBeginValueOrEmpty, et, .parseArrayValue :: p :: ps, e, b⟩ 93 =
      some ⟨.stateEndValue, et, p :: ps, e, b + 1⟩ := by
  simp [nextScanner, Scanner.stepByte, stateBeginValueOrEmpty, stateEndValue, isSpace,
    Scanner.popParseState]

/-- A member `key : value` with its whitespace, where a key is expected. -/
theorem run_member (st : StepFn) (et : Bool) (ps : List ParseState) (e : Option GoError)
    (b : Int) (w1 k w2 w3 v w4 : List Nat) (hst : BeginsKey st) (h1 : IsWs w1) (hk : JString k)
    (h2 : IsWs w2) (h3 : IsWs w3) (hv : Accepts .value v) (h4 : IsWs w4)
    (hdepth : ps.length + 1 + v.length ≤ maxNestingDepth) :
    ∃ st1 b1, AfterValue st1 ∧
      runNext ⟨st, et, .parseObjectKey :: ps, e, b⟩ (w1 ++ k ++ w2 ++ 58 :: (w3 ++ v ++ w4)) =
        some ⟨st1, et, .parseObjectValue :: ps, e, b1⟩ := by
  obtain ⟨b1, r1⟩ := run_space_begin st et (.parseObjectKey :: ps) e b w1 (Or.inr hst) h1
  obtain ⟨b2, r2⟩ := run_string st et (.parseObjectKey :: ps) e b1 k (Or.inr hst) hk
  obtain ⟨st3, b3, a3, r3⟩ := run_space_after .stateEndValue et .parseObjectKey ps e b2 w2
    (Or.inl rfl) h2
  have r4 := next_colon st3 et ps e b3 a3
  obtain ⟨b5, r5⟩ := run_space_begin .stateBeginValue et (.parseObjectValue :: ps) e (b3 + 1) w3
    (Or.inl (Or.inl rfl)) h3
  obtain ⟨st6, b6, a6, r6⟩ := hv .stateBeginValue et (.parseObjectValue :: ps) e b5 (Or.inl rfl)
    (by simp) (by simpa [Nat.add_comm, Nat.add_left_comm, Nat.add_assoc] using hdepth)
  obtain ⟨st7, b7, a7, r7⟩ := run_space_after st6 et .parseObjectValue ps e b6 w4 a6 h4
  exact ⟨st7, b7, a7, runNext_seq _ _ _ _ _ (runNext_seq _ _ _ _ _ (runNext_seq _ _ _ _ _ r1 r2) r3)
    (runNext_cons _ _ _ _ _ r4 (runNext_seq _ _ _ _ _ (runNext_seq _ _ _ _ _ r5 r6) r7))⟩

/-- An element with its whitespace, where a value is expected. -/
theorem run_element (st : StepFn) (et : Bool) (ps : List ParseState) (e : Option GoError)
    (b : Int) (w1 v w2 : List Nat) (hst : BeginsValue st) (h1 : IsWs w1)
    (hv : Accepts .value v) (h2 : IsWs w2)
    (hdepth : ps.length + 1 + v.length ≤ maxNestingDepth) :
    ∃ st1 b1, AfterValue st1 ∧
      runNext ⟨st, et, .parseArrayValue :: ps, e, b⟩ (w1 ++ v ++ w2) =
        some ⟨st1, et, .parseArrayValue :: ps, e, b1⟩ := by
  obtain ⟨b1, r1⟩ := run_space_begin st et (.parseArrayValue :: ps) e b w1 (Or.inl hst) h1
  obtain ⟨st2, b2, a2, r2⟩ := hv st et (.parseArrayValue :: ps) e b1 hst
    (by simp) (by simpa [Nat.add_comm, Nat.add_left_comm, Nat.add_assoc] using hdepth)
  obtain ⟨st3, b3, a3, r3⟩ := run_space_after st2 et .parseArrayValue ps e b2 w2 a2 h2
  exact ⟨st3, b3, a3, runNext_seq _ _ _ _ _ (runNext_seq _ _ _ _ _ r1 r2) r3⟩

/-- The scanner accepts every JSON text. -/
theorem accepts (k : JKind) (t : List Nat) (h : JText k t) : Accepts k t := by
  induction h with
  | null =>
    intro st et ps e b hst _ _
    obtain ⟨b1, r⟩ := run_null st et ps e b hst
    exact ⟨_, b1, Or.inl rfl, r⟩
  | true =>
    intro st et ps e b hst _ _
    obtain ⟨b1, r⟩ := run_true st et ps e b hst
    exact ⟨_, b1, Or.inl rfl, r⟩
  | false =>
    intro st et ps e b hst _ _
    obtain ⟨b1, r⟩ := run_false st et ps e b hst
    exact ⟨_, b1, Or.inl rfl, r⟩
  | number s hs =>
    intro st et ps e b hst _ _
    exact run_number st et ps e b s hst hs
  | string s hs =>
    intro st et ps e b hst _ _
    obtain ⟨b1, r⟩ := run_string st et ps e b s (Or.inl hst) hs
    exact ⟨_, b1, Or.inl rfl, r⟩
  | emptyArray ws hws =>
    intro st et ps e b hst hps hdepth
    obtain ⟨p, ps, rfl⟩ := List.exists_cons_of_ne_nil hps
    simp only [List.length_cons, List.length_append, List.length_nil] at hdepth
    have r1 := next_open_array st et (p :: ps) e b hst (by simp only [List.length_cons]; omega)
    obtain ⟨b2, r2⟩ := run_space_begin .stateBeginValueOrEmpty et (.parseArrayValue :: p :: ps) e
      (b + 1) ws (Or.inl (Or.inr rfl)) hws
    have r3 := next_close_empty_array et p ps e b2
    exact ⟨_, _, Or.inl rfl, runNext_cons _ _ _ _ _ r1 (runNext_seq _ _ _ _ _ r2
      (runNext_one _ _ _ r3))⟩
  | array es _ ih =>
    intro st et ps e b hst hps hdepth
    obtain ⟨p, ps, rfl⟩ := List.exists_cons_of_ne_nil hps
    simp only [List.length_cons, List.length_append, List.length_nil] at hdepth
    have r1 := next_open_array st et (p :: ps) e b hst (by simp only [List.length_cons]; omega)
    obtain ⟨st2, b2, a2, r2⟩ := ih .stateBeginValueOrEmpty et (p :: ps) e (b + 1) (Or.inr rfl)
      (by simp only [List.length_cons]; omega)
    have r3 := next_close_array st2 et p ps e b2 a2
    exact ⟨_, _, Or.inl rfl, runNext_cons _ _ _ _ _ r1 (runNext_seq _ _ _ _ _ r2
      (runNext_one _ _ _ r3))⟩
  | emptyObject ws hws =>
    intro st et ps e b hst hps hdepth
    obtain ⟨p, ps, rfl⟩ := List.exists_cons_of_ne_nil hps
    simp only [List.length_cons, List.length_append, List.length_nil] at hdepth
    have r1 := next_open_object st et (p :: ps) e b hst (by simp only [List.length_cons]; omega)
    obtain ⟨b2, r2⟩ := run_space_begin .stateBeginStringOrEmpty et (.parseObjectKey :: p :: ps) e
      (b + 1) ws (Or.inr (Or.inr rfl)) hws
    have r3 := next_close_empty_object et p ps e b2
    exact ⟨_, _, Or.inl rfl, runNext_cons _ _ _ _ _ r1 (runNext_seq _ _ _ _ _ r2
      (runNext_one _ _ _ r3))⟩
  | object ms _ ih =>
    intro st et ps e b hst hps hdepth
    obtain ⟨p, ps, rfl⟩ := List.exists_cons_of_ne_nil hps
    simp only [List.length_cons, List.length_append, List.length_nil] at hdepth
    have r1 := next_open_object st et (p :: ps) e b hst (by simp only [List.length_cons]; omega)
    obtain ⟨st2, b2, a2, r2⟩ := ih .stateBeginStringOrEmpty et (p :: ps) e (b + 1) (Or.inr rfl)
      (by simp only [List.length_cons]; omega)
    have r3 := next_close_object st2 et p ps e b2 a2
    exact ⟨_, _, Or.inl rfl, runNext_cons _ _ _ _ _ r1 (runNext_seq _ _ _ _ _ r2
      (runNext_one _ _ _ r3))⟩
  | element w1 v w2 h1 _ h2 ih =>
    intro st et ps e b hst hdepth
    simp only [List.length_append] at hdepth
    exact run_element st et ps e b w1 v w2 hst h1 ih h2 (by omega)
  | elements w1 v w2 es h1 _ h2 _ ihv ihes =>
    intro st et ps e b hst hdepth
    simp only [List.length_append, List.length_cons] at hdepth
    obtain ⟨st1, b1, a1, r1⟩ := run_element st et ps e b w1 v w2 hst h1 ihv h2 (by omega)
    have r2 := next_comma_array st1 et ps e b1 a1
    obtain ⟨st3, b3, a3, r3⟩ := ihes .stateBeginValue et ps e (b1 + 1) (Or.inl rfl) (by omega)
    exact ⟨st3, b3, a3, runNext_seq _ _ _ _ _ r1 (runNext_cons _ _ _ _ _ r2 r3)⟩
  | member w1 k w2 w3 v w4 h1 hk h2 h3 _ h4 ih =>
    intro st et ps e b hst hdepth
    simp only [List.length_append, List.length_cons] at hdepth
    exact run_member st et ps e b w1 k w2 w3 v w4 hst h1 hk h2 h3 ih h4 (by omega)
  | members w1 k w2 w3 v w4 ms h1 hk h2 h3 _ h4 _ ihv ihms =>
    intro st et ps e b hst hdepth
    simp only [List.length_append, List.length_cons] at hdepth
    obtain ⟨st1, b1, a1, r1⟩ := run_member st et ps e b w1 k w2 w3 v w4 hst h1 hk h2 h3 ihv h4
      (by omega)
    have r2 := next_comma_object st1 et ps e b1 a1
    obtain ⟨st3, b3, a3, r3⟩ := ihms .stateBeginString et ps e (b1 + 1) (Or.inl rfl) (by omega)
    exact ⟨st3, b3, a3, runNext_seq _ _ _ _ _ r1 (runNext_cons _ _ _ _ _ r2 r3)⟩

/-- The closing brace of a top-level object ends the value. -/
theorem scanBuffer_close_top (st : StepFn) (et : Bool) (e : Option GoError) (b : Int)
    (rest : List Nat) (n : Nat) (hst : AfterValue st) :
    scanBuffer ⟨st, et, [.parseObjectValue], e, b⟩ (125 :: rest) n =
      .value (n + 1) ⟨.stateEndTop, true, [], e, b + 1⟩ := by
  obtain ⟨h1, h2, h3, h4⟩ := not_continues 125 (by simp)
  have hn : nextScanner ⟨st, et, [.parseObjectValue], e, b⟩ 125 = none := by
    unfold nextScanner
    rw [stepByte_after st et _ e (b + 1) 125 hst h1 h2 h3 h4]
    simp [stateEndValue, stateEndTop, isSpace, Scanner.popParseState]
  rw [scanBuffer_stop _ _ _ _ hn]
  unfold stopResult
  rw [stepByte_after st et _ e (b + 1) 125 hst h1 h2 h3 h4]
  simp [stateEndValue, stateEndTop, isSpace, Scanner.popParseState]

theorem scanBuffer_close_top_empty (et : Bool) (e : Option GoError) (b : Int)
    (rest : List Nat) (n : Nat) :
    scanBuffer ⟨.stateBeginStringOrEmpty, et, [.parseObjectKey], e, b⟩ (125 :: rest) n =
      .value (n + 1) ⟨.stateEndTop, true, [], e, b + 1⟩ := by
  have hn : nextScanner ⟨.stateBeginStringOrEmpty, et, [.parseObjectKey], e, b⟩ 125 = none := by
    simp [nextScanner, Scanner.stepByte, stateBeginStringOrEmpty, stateEndValue, stateEndTop,
      isSpace, Scanner.popParseState]
  rw [scanBuffer_stop _ _ _ _ hn]
  simp [stopResult, Scanner.stepByte, stateBeginStringOrEmpty, stateEndValue, stateEndTop,
    isSpace, Scanner.popParseState]

/-- The scan of a JSON object at the start of the input ends with its closing
brace, whatever follows. -/
theorem scanBuffer_object (obj rest : List Nat) (hobj : JObject obj)
    (hlen : obj.length ≤ maxNestingDepth) :
    ∃ s, scanBuffer ⟨.stateBeginValue, false, [], none, 0⟩ (obj ++ rest) 0 =
      .value obj.length s := by
  have r1 := next_open_object .stateBeginValue false [] none 0 (Or.inl rfl)
    (by simp [maxNestingDepth])
  rcases hobj with ⟨ws, hws, rfl⟩ | ⟨ms, hms, rfl⟩
  · obtain ⟨b2, r2⟩ := run_space_begin .stateBeginStringOrEmpty false [.parseObjectKey] none
      (0 + 1) ws (Or.inr (Or.inr rfl)) hws
    have r := runNext_cons _ _ _ _ _ r1 r2
    refine ⟨⟨.stateEndTop, true, [], none, b2 + 1⟩, ?_⟩
    rw [show (123 :: ws ++ [125]) ++ rest = (123 :: ws) ++ (125 :: rest) by simp,
      scanBuffer_runNext _ _ _ _ _ r, scanBuffer_close_top_empty]
    simp
  · simp only [List.length_cons, List.length_append, List.length_nil] at hlen
    obtain ⟨st2, b2, a2, r2⟩ := accepts .members ms hms .stateBeginStringOrEmpty false [] none
      (0 + 1) (Or.inr rfl) (by simp only [List.length_nil]; omega)
    have r := runNext_cons _ _ _ _ _ r1 r2
    refine ⟨⟨.stateEndTop, true, [], none, b2 + 1⟩, ?_⟩
    rw [show (123 :: ms ++ [125]) ++ rest = (123 :: ms) ++ (125 :: rest) by simp,
      scanBuffer_runNext _ _ _ _ _ r, scanBuffer_close_top _ _ _ _ _ _ a2]
    simp

/-- The decoder reads a body that is one JSON object of at most 250 bytes, all
of it, as its first value. -/
theorem readValue_object (body : List Nat) (hobj : JObject body) (hlen : body.length ≤ 250) :
    (firstDecoder body).readValue.2 = (body.length, none) := by
  obtain ⟨s, hs⟩ := scanBuffer_object body [] hobj (by simp only [maxNestingDepth]; omega)
  rw [List.append_nil] at hs
  unfold Decoder.readValue
  rw [firstDecoder_scan, firstDecoder_input, List.take_of_length_le hlen, hs]


/-- C1. `readJSON` succeeds on a well-formed single document: for every
destination record and every body of at most 250 bytes that is exactly one
JSON object (followed by nothing) which the codec stores into the record
without an error (its keys are fields of the record and its values have their
types), `readJSON` returns nil and the destination holds what was decoded. -/
theorem readJSON_single_document {D : Type} (codec : Codec D) (table : Nat → Bool)
    (body : List Nat) (v v1 : D) (hlen : body.length ≤ 250) (hobj : JObject body)
    (hstore : codec.store true body v = (v1, none)) :
    readJSON codec table body (.pointer v) = (.pointer v1, .returned none) :=
  readJSON_whole_body codec table body v v1 hlen (readValue_object body hobj hlen) hstore

/-- The text `"A":1,"B":"x"` is the members of a JSON object. -/
theorem sample_members : JText .members (utf8 "\"A\":1,\"B\":\"x\"") :=
  JText.members [] (utf8 "\"A\"") [] [] (utf8 "1") [] (utf8 "\"B\":\"x\"")
    (by simp [IsWs]) ⟨[65], .plain 65 [] (by decide) (by decide) (by decide) .nil, rfl⟩
    (by simp [IsWs]) (by simp [IsWs])
    (.number _ ⟨[], [49], [], [], Or.inl rfl, Or.inr ⟨49, [], by decide, by decide,
      by simp [IsDigits], rfl⟩, Or.inl rfl, Or.inl rfl, rfl⟩)
    (by simp [IsWs])
    (JText.member [] (utf8 "\"B\"") [] [] (utf8 "\"x\"") [] (by simp [IsWs])
      ⟨[66], .plain 66 [] (by decide) (by decide) (by decide) .nil, rfl⟩ (by simp [IsWs])
      (by simp [IsWs])
      (.string _ ⟨[120], .plain 120 [] (by decide) (by decide) (by decide) .nil, rfl⟩)
      (by simp [IsWs]))

/-- A body for C1, the object with the members `"A":1,"B":"x"`, is decoded into
the record. -/
theorem readJSON_single_document_witness :
    readJSON sampleCodec sampleTable (utf8 "\x7b\"A\":1,\"B\":\"x\"\x7d") (.pointer ⟨0, ""⟩) =
      (.pointer ⟨1, "x"⟩, .returned none) :=
  readJSON_single_document sampleCodec sampleTable (utf8 "\x7b\"A\":1,\"B\":\"x\"\x7d") ⟨0, ""⟩
    ⟨1, "x"⟩ (by decide) (Or.inr ⟨_, sample_members, rfl⟩) (by decide)

/-! ### The scanner runs over the beginnings of the JSON texts -/

theorem runNext_prefix (s s2 : Scanner) (a b : List Nat) (h : runNext s (a ++ b) = some s2) :
    ∃ s1, runNext s a = some s1 := by
  rw [runNext_append] at h
  cases h1 : runNext s a with
  | none => rw [h1] at h; cases h
  | some s1 => exact ⟨s1, rfl⟩

/-- A beginning of `x ++ y` is a beginning of `x`, or `x` and a beginning of `y`. -/
theorem prefix_append_cases (a x y : List Nat) (h : a <+: x ++ y) :
    a <+: x ∨ ∃ a1, a = x ++ a1 ∧ a1 <+: y := by
  rcases List.prefix_or_prefix_of_prefix h (List.prefix_append x y) with h1 | h1
  · exact Or.inl h1
  · obtain ⟨a1, rfl⟩ := h1
    exact Or.inr ⟨a1, rfl, (List.prefix_append_right_inj x).1 h⟩

theorem RunsPrefix_of_run (s s1 : Scanner) (t : List Nat) (h : runNext s t = some s1) :
    RunsPrefix s t := by
  intro a ha _
  obtain ⟨r, rfl⟩ := ha
  exact runNext_prefix s s1 a r h

/-- The beginnings of `x ++ y`: those of `x`, and after all of `x` those of `y`. -/
theorem RunsPrefix_append (s : Scanner) (x y : List Nat) (hx : RunsPrefix s x)
    (hy : s.parseState.length + x.length ≤ maxNestingDepth →
      ∃ s1, runNext s x = some s1 ∧ s1.parseState.length ≤ s.parseState.length + x.length ∧
        RunsPrefix s1 y) : RunsPrefix s (x ++ y) := by
  intro a ha hb
  rcases prefix_append_cases a x y ha with h1 | ⟨a1, rfl, h1⟩
  · exact hx a h1 hb
  · rw [List.length_append] at hb
    obtain ⟨s1, r1, hl, h2⟩ := hy (by omega)
    obtain ⟨s2, r2⟩ := h2 a1 h1 (by omega)
    exact ⟨s2, runNext_seq _ _ _ _ _ r1 r2⟩

theorem RunsPrefix_cons (s : Scanner) (c : Nat) (y : List Nat)
    (hy : s.parseState.length + 1 ≤ maxNestingDepth →
      ∃ s1, nextScanner s c = some s1 ∧ s1.parseState.length ≤ s.parseState.length + 1 ∧
        RunsPrefix s1 y) : RunsPrefix s (c :: y) := by
  have hx : RunsPrefix s [c] := by
    intro a ha hb
    rcases List.eq_nil_or_concat a with rfl | ⟨a0, c0, rfl⟩
    · exact ⟨s, rfl⟩
    · have hlen := List.IsPrefix.length_le ha
      simp only [List.concat_eq_append, List.length_append, List.length_singleton] at hlen hb
      have h0 : a0 = [] := List.length_eq_zero.1 (by omega)
      subst h0
      obtain ⟨s1, h1, -, -⟩ := hy (by omega)
      obtain ⟨r, hr⟩ := ha
      simp only [List.concat_eq_append, List.nil_append, List.singleton_append,
        List.cons.injEq] at hr
      obtain ⟨rfl, -⟩ := hr
      exact ⟨s1, runNext_one _ _ _ h1⟩
  have := RunsPrefix_append s [c] y hx (by
    intro hb
    obtain ⟨s1, h1, h2, h3⟩ := hy (by simpa using hb)
    exact ⟨s1, runNext_one _ _ _ h1, by simpa using h2, h3⟩)
  simpa using this

/-- A value between whitespace, inside an array or an object: the scanner
runs over all of it when the stack stays within the limit. -/
theorem run_padded (st : StepFn) (et : Bool) (p : ParseState) (ps : List ParseState)
    (e : Option GoError) (b : Int) (w1 v w2 : List Nat) (hst : BeginsValue st) (h1 : IsWs w1)
    (hv : Accepts .value v) (h2 : IsWs w2)
    (hdepth : ps.length + 1 + v.length ≤ maxNestingDepth) :
    ∃ st1 b1, AfterValue st1 ∧
      runNext ⟨st, et, p :: ps, e, b⟩ (w1 ++ v ++ w2) = some ⟨st1, et, p :: ps, e, b1⟩ := by
  obtain ⟨b1, r1⟩ := run_space_begin st et (p :: ps) e b w1 (Or.inl hst) h1
  obtain ⟨st2, b2, a2, r2⟩ := hv st et (p :: ps) e b1 hst
    (by simp) (by simpa [Nat.add_comm, Nat.add_left_comm, Nat.add_assoc] using hdepth)
  obtain ⟨st3, b3, a3, r3⟩ := run_space_after st2 et p ps e b2 w2 a2 h2
  exact ⟨st3, b3, a3, runNext_seq _ _ _ _ _ (runNext_seq _ _ _ _ _ r1 r2) r3⟩

/-- The beginnings of a value between whitespace, inside an array or an object. -/
theorem runsPrefix_padded (st : StepFn) (et : Bool) (p : ParseState) (ps : List ParseState)
    (e : Option GoError) (b : Int) (w1 v w2 : List Nat) (hst : BeginsValue st) (h1 : IsWs w1)
    (hv : Accepts .value v) (hpv : AcceptsPrefix .value v) (h2 : IsWs w2) :
    RunsPrefix ⟨st, et, p :: ps, e, b⟩ (w1 ++ v ++ w2) := by
  obtain ⟨b1, r1⟩ := run_space_begin st et (p :: ps) e b w1 (Or.inl hst) h1
  apply RunsPrefix_append
  · apply RunsPrefix_append
    · exact RunsPrefix_of_run _ _ _ r1
    · intro _
      exact ⟨_, r1, by simp, hpv st et (p :: ps) e b1 hst (by simp)⟩
  · intro hb
    simp only [List.length_append, List.length_cons] at hb
    obtain ⟨st2, b2, a2, r2⟩ := hv st et (p :: ps) e b1 hst (by simp)
      (by simp only [List.length_cons]; omega)
    obtain ⟨st3, b3, a3, r3⟩ := run_space_after st2 et p ps e b2 w2 a2 h2
    exact ⟨_, runNext_seq _ _ _ _ _ r1 r2, by simp, RunsPrefix_of_run _ _ _ r3⟩

/-- The beginnings of a member `key : value` with its whitespace. -/
theorem runsPrefix_member (st : StepFn) (et : Bool) (ps : List ParseState) (e : Option GoError)
    (b : Int) (w1 k w2 w3 v w4 : List Nat) (hst : BeginsKey st) (h1 : IsWs w1) (hk : JString k)
    (h2 : IsWs w2) (h3 : IsWs w3) (hv : Accepts .value v) (hpv : AcceptsPrefix .value v)
    (h4 : IsWs w4) :
    RunsPrefix ⟨st, et, .parseObjectKey :: ps, e, b⟩
      (w1 ++ k ++ w2 ++ 58 :: (w3 ++ v ++ w4)) := by
  obtain ⟨b1, r1⟩ := run_space_begin st et (.parseObjectKey :: ps) e b w1 (Or.inr hst) h1
  obtain ⟨b2, r2⟩ := run_string st et (.parseObjectKey :: ps) e b1 k (Or.inr hst) hk
  obtain ⟨st3, b3, a3, r3⟩ := run_space_after .stateEndValue et .parseObjectKey ps e b2 w2
    (Or.inl rfl) h2
  have r := runNext_seq _ _ _ _ _ (runNext_seq _ _ _ _ _ r1 r2) r3
  apply RunsPrefix_append
  · exact RunsPrefix_of_run _ _ _ r
  · intro _
    refine ⟨_, r, by simp, ?_⟩
    apply RunsPrefix_cons
    intro _
    exact ⟨_, next_colon st3 et ps e b3 a3, by simp,
      runsPrefix_padded .stateBeginValue et .parseObjectValue ps e (b3 + 1) w3 v w4 (Or.inl rfl)
        h3 hv hpv h4⟩

/-- The scanner runs over the beginnings of every JSON text. -/
theorem accepts_prefix (k : JKind) (t : List Nat) (h : JText k t) : AcceptsPrefix k t := by
  induction h with
  | null =>
    intro st et ps e b hst _
    obtain ⟨b1, r⟩ := run_null st et ps e b hst
    exact RunsPrefix_of_run _ _ _ r
  | true =>
    intro st et ps e b hst _
    obtain ⟨b1, r⟩ := run_true st et ps e b hst
    exact RunsPrefix_of_run _ _ _ r
  | false =>
    intro st et ps e b hst _
    obtain ⟨b1, r⟩ := run_false st et ps e b hst
    exact RunsPrefix_of_run _ _ _ r
  | number s hs =>
    intro st et ps e b hst _
    obtain ⟨st1, b1, -, r⟩ := run_number st et ps e b s hst hs
    exact RunsPrefix_of_run _ _ _ r
  | string s hs =>
    intro st et ps e b hst _
    obtain ⟨b1, r⟩ := run_string st et ps e b s (Or.inl hst) hs
    exact RunsPrefix_of_run _ _ _ r
  | emptyArray ws hws =>
    intro st et ps e b hst hps
    obtain ⟨p, ps, rfl⟩ := List.exists_cons_of_ne_nil hps
    rw [List.cons_append]
    apply RunsPrefix_cons
    intro hb
    refine ⟨_, next_open_array st et (p :: ps) e b hst hb, by simp, ?_⟩
    obtain ⟨b2, r2⟩ := run_space_begin .stateBeginValueOrEmpty et (.parseArrayValue :: p :: ps) e
      (b + 1) ws (Or.inl (Or.inr rfl)) hws
    exact RunsPrefix_of_run _ _ _ (runNext_seq _ _ _ _ _ r2
      (runNext_one _ _ _ (next_close_empty_array et p ps e b2)))
  | array es hes ih =>
    intro st et ps e b hst hps
    obtain ⟨p, ps, rfl⟩ := List.exists_cons_of_ne_nil hps
    rw [List.cons_append]
    apply RunsPrefix_cons
    intro hb
    refine ⟨_, next_open_array st et (p :: ps) e b hst hb, by simp, ?_⟩
    apply RunsPrefix_append
    · exact ih .stateBeginValueOrEmpty et (p :: ps) e (b + 1) (Or.inr rfl)
    · intro hb2
      simp only [List.length_cons] at hb2
      obtain ⟨st2, b2, a2, r2⟩ := accepts .elements es hes .stateBeginValueOrEmpty et (p :: ps) e
        (b + 1) (Or.inr rfl) (by simp only [List.length_cons]; omega)
      exact ⟨_, r2, by simp, RunsPrefix_of_run _ _ _
        (runNext_one _ _ _ (next_close_array st2 et p ps e b2 a2))⟩
  | emptyObject ws hws =>
    intro st et ps e b hst hps
    obtain ⟨p, ps, rfl⟩ := List.exists_cons_of_ne_nil hps
    rw [List.cons_append]
    apply RunsPrefix_cons
    intro hb
    refine ⟨_, next_open_object st et (p :: ps) e b hst hb, by simp, ?_⟩
    obtain ⟨b2, r2⟩ := run_space_begin .stateBeginStringOrEmpty et (.parseObjectKey :: p :: ps) e
      (b + 1) ws (Or.inr (Or.inr rfl)) hws
    exact RunsPrefix_of_run _ _ _ (runNext_seq _ _ _ _ _ r2
      (runNext_one _ _ _ (next_close_empty_object et p ps e b2)))
  | object ms hms ih =>
    intro st et ps e b hst hps
    obtain ⟨p, ps, rfl⟩ := List.exists_cons_of_ne_nil hps
    rw [List.cons_append]
    apply RunsPrefix_cons
    intro hb
    refine ⟨_, next_open_object st et (p :: ps) e b hst hb, by simp, ?_⟩
    apply RunsPrefix_append
    · exact ih .stateBeginStringOrEmpty et (p :: ps) e (b + 1) (Or.inr rfl)
    · intro hb2
      simp only [List.length_cons] at hb2
      obtain ⟨st2, b2, a2, r2⟩ := accepts .members ms hms .stateBeginStringOrEmpty et (p :: ps) e
        (b + 1) (Or.inr rfl) (by simp only [List.length_cons]; omega)
      exact ⟨_, r2, by simp, RunsPrefix_of_run _ _ _
        (runNext_one _ _ _ (next_close_object st2 et p ps e b2 a2))⟩
  | element w1 v w2 h1 hv h2 ih =>
    intro st et ps e b hst
    exact runsPrefix_padded st et .parseArrayValue ps e b w1 v w2 hst h1 (accepts _ _ hv) ih h2
  | elements w1 v w2 es h1 hv h2 _ ihv ihes =>
    intro st et ps e b hst
    apply RunsPrefix_append
    · exact runsPrefix_padded st et .parseArrayValue ps e b w1 v w2 hst h1 (accepts _ _ hv) ihv h2
    · intro hb
      simp only [List.length_append, List.length_cons] at hb
      obtain ⟨st1, b1, a1, r1⟩ := run_padded st et .parseArrayValue ps e b w1 v w2 hst h1
        (accepts _ _ hv) h2 (by omega)
      refine ⟨_, r1, by simp, ?_⟩
      apply RunsPrefix_cons
      intro _
      exact ⟨_, next_comma_array st1 et ps e b1 a1, by simp,
        ihes .stateBeginValue et ps e (b1 + 1) (Or.inl rfl)⟩
  | member w1 k w2 w3 v w4 h1 hk h2 h3 hv h4 ih =>
    intro st et ps e b hst
    exact runsPrefix_member st et ps e b w1 k w2 w3 v w4 hst h1 hk h2 h3 (accepts _ _ hv) ih h4
  | members w1 k w2 w3 v w4 ms h1 hk h2 h3 hv h4 _ ihv ihms =>
    intro st et ps e b hst
    apply RunsPrefix_append
    · exact runsPrefix_member st et ps e b w1 k w2 w3 v w4 hst h1 hk h2 h3 (accepts _ _ hv) ihv h4
    · intro hb
      simp only [List.length_append, List.length_cons] at hb
      obtain ⟨st1, b1, a1, r1⟩ := run_member st et ps e b w1 k w2 w3 v w4 hst h1 hk h2 h3
        (accepts _ _ hv) h4 (by omega)
      refine ⟨_, r1, by simp, ?_⟩
      apply RunsPrefix_cons
      intro _
      exact ⟨_, next_comma_object st1 et ps e b1 a1, by simp,
        ihms .stateBeginString et ps e (b1 + 1) (Or.inl rfl)⟩

/-! ### C2 and C7, with well-formed bodies -/

theorem scanBuffer_of_runNext (s s1 : Scanner) (a : List Nat) (n : Nat)
    (h : runNext s a = some s1) : scanBuffer s a n = .exhausted s1 := by
  have := scanBuffer_runNext s s1 a [] n h
  rw [List.append_nil] at this
  rw [this]
  rfl

/-- The loop of `readValue` runs over every beginning of a JSON object that
stops before its closing brace, within the nesting limit. -/
theorem runsPrefix_object (obj : List Nat) (hobj : JObject obj) :
    ∃ init, obj = init ++ [125] ∧
      RunsPrefix ⟨.stateBeginValue, false, [], none, 0⟩ init := by
  rcases hobj with ⟨ws, hws, rfl⟩ | ⟨ms, hms, rfl⟩
  · refine ⟨123 :: ws, by simp, RunsPrefix_cons _ _ _ fun hb => ?_⟩
    obtain ⟨b2, r2⟩ := run_space_begin .stateBeginStringOrEmpty false [.parseObjectKey] none
      (0 + 1) ws (Or.inr (Or.inr rfl)) hws
    exact ⟨_, next_open_object .stateBeginValue false [] none 0 (Or.inl rfl) hb, by simp,
      RunsPrefix_of_run _ _ _ r2⟩
  · refine ⟨123 :: ms, by simp, RunsPrefix_cons _ _ _ fun hb => ?_⟩
    exact ⟨_, next_open_object .stateBeginValue false [] none 0 (Or.inl rfl) hb, by simp,
      accepts_prefix .members ms hms .stateBeginStringOrEmpty false [] none (0 + 1) (Or.inr rfl)⟩

/-- The first 250 bytes of a longer JSON object are scanned without an error
and without an end of the value. -/
theorem scanFirst_object (body : List Nat) (hobj : JObject body) (hlen : 250 < body.length) :
    ∃ s, scanFirst body = .exhausted s := by
  obtain ⟨init, hbody, hrun⟩ := runsPrefix_object body hobj
  have hinit : 250 ≤ init.length := by
    have := congrArg List.length hbody
    simp only [List.length_append, List.length_singleton] at this
    omega
  have htake : body.take 250 = init.take 250 := by
    rw [hbody, List.take_append_of_le_length hinit]
  obtain ⟨s1, h1⟩ := hrun (init.take 250) (List.take_prefix 250 init) (by
    simp only [List.length_nil, List.length_take, maxNestingDepth]
    omega)
  exact ⟨s1, by rw [scanFirst_take, htake]; exact scanBuffer_of_runNext _ _ _ _ h1⟩

/-- C2 (amended). `readJSON` reports the size limit for a body of more than
250 bytes of which the decoder has to read more than the first 250 bytes:
when the scanner reads these without an error and without reaching the end of
the first JSON value, as it does when the body is one JSON object, `readJSON`
fails with "the body must not be larger that 250 bytes", the limit reported
being the configured 250. -/
theorem readJSON_body_too_large {D : Type} (codec : Codec D) (table : Nat → Bool)
    (body : List Nat) (destination : Destination D) (hlen : 250 < body.length) :
    (∀ s, scanFirst body = .exhausted s →
      readJSON codec table body destination =
        (destination,
          .returned (some (.errorString "the body must not be larger that 250 bytes")))) ∧
    (JObject body →
      readJSON codec table body destination =
        (destination,
          .returned (some (.errorString "the body must not be larger that 250 bytes")))) := by
  refine ⟨fun s hs => readJSON_of_exhausted_limit codec table body destination s hlen hs, ?_⟩
  intro hobj
  obtain ⟨s, hs⟩ := scanFirst_object body hobj hlen
  exact readJSON_of_exhausted_limit codec table body destination s hlen hs

theorem JChars_replicate (n : Nat) (c : Nat) (h1 : 32 ≤ c) (h2 : c ≠ 34) (h3 : c ≠ 92) :
    JChars (List.replicate n c) := by
  induction n with
  | zero => exact .nil
  | succ n ih => exact .plain c _ h1 h2 h3 ih

/-- The object whose only member has the key `C` and a string of `n` letters
`a` as its value is a JSON object. -/
theorem sample_long_object (n : Nat) :
    JObject (123 :: (utf8 "\"C\":" ++ (34 :: List.replicate n 97 ++ [34])) ++ [125]) :=
  Or.inr ⟨_, JText.member [] (utf8 "\"C\"") [] [] (34 :: List.replicate n 97 ++ [34]) []
    (by simp [IsWs]) ⟨[67], .plain 67 [] (by decide) (by decide) (by decide) .nil, rfl⟩
    (by simp [IsWs]) (by simp [IsWs])
    (.string _ ⟨_, JChars_replicate n 97 (by decide) (by decide) (by decide), rfl⟩)
    (by simp [IsWs]), by
      have h1 : utf8 "\"C\":" = [34, 67, 34, 58] := by decide
      have h2 : utf8 "\"C\"" = [34, 67, 34] := by decide
      rw [h1, h2]
      simp⟩

/-- Bodies for C2: a JSON string that is still open after 250 bytes, a JSON
object of 308 bytes, and a JSON object of 10008 bytes. -/
theorem readJSON_body_too_large_witness :
    readJSON sampleCodec sampleTable (34 :: List.replicate 300 97) (.pointer ⟨0, ""⟩) =
      (.pointer ⟨0, ""⟩,
        .returned (some (.errorString "the body must not be larger that 250 bytes"))) ∧
    readJSON sampleCodec sampleTable
        (123 :: (utf8 "\"C\":" ++ (34 :: List.replicate 300 97 ++ [34])) ++ [125])
        (.pointer ⟨0, ""⟩) =
      (.pointer ⟨0, ""⟩,
        .returned (some (.errorString "the body must not be larger that 250 bytes"))) ∧
    readJSON sampleCodec sampleTable
        (123 :: (utf8 "\"C\":" ++ (34 :: List.replicate 10000 97 ++ [34])) ++ [125])
        (.pointer ⟨0, ""⟩) =
      (.pointer ⟨0, ""⟩,
        .returned (some (.errorString "the body must not be larger that 250 bytes"))) :=
  ⟨(readJSON_body_too_large sampleCodec sampleTable (34 :: List.replicate 300 97)
      (.pointer ⟨0, ""⟩) (by rw [List.length_cons, List.length_replicate]; decide)).1
      ⟨.stateInString, false, [], none, 250⟩ (by decide!),
    (readJSON_body_too_large sampleCodec sampleTable _ (.pointer ⟨0, ""⟩)
      (by decide!)).2 (sample_long_object 300),
    (readJSON_body_too_large sampleCodec sampleTable _ (.pointer ⟨0, ""⟩)
      (by
        simp only [List.length_cons, List.length_append, List.length_replicate]
        omega)).2 (sample_long_object 10000)⟩

/-- C7 (amended). With a destination that is invalid for decoding, `readJSON`
panics with the `InvalidUnmarshalError`, and returns nothing, when the decoder
reads a first JSON value from the body, as it does when the body is one JSON
object of at most 250 bytes; when reading the first value fails (an empty,
malformed, truncated or oversized body), that failure is returned as an
error instead, and `readJSON` does not panic. -/
theorem readJSON_invalid_destination {D : Type} (codec : Codec D) (table : Nat → Bool)
    (body : List Nat) (t : BadDestination) :
    ((firstDecoder body).readValue.2.2 = none →
      readJSON codec table body (.invalid t) =
        (.invalid t, .panicked (.invalidUnmarshalError t))) ∧
    (JObject body → body.length ≤ 250 →
      readJSON codec table body (.invalid t) =
        (.invalid t, .panicked (.invalidUnmarshalError t))) ∧
    ((firstDecoder body).readValue.2.2 ≠ none →
      ∃ msg, readJSON codec table body (.invalid t) =
        (.invalid t, .returned (some (.errorString msg)))) := by
  obtain ⟨h1, h2⟩ := readJSON_of_invalid codec table body t
  refine ⟨h1, fun hobj hlen => h1 ?_, h2⟩
  rw [readValue_object body hobj hlen]

/-- Bodies for C7: with a nil destination, the empty object makes `readJSON`
panic and the truncated `{"A":` does not. -/
theorem readJSON_invalid_destination_witness :
    readJSON sampleCodec sampleTable (utf8 "\x7b\x7d") (.invalid .nilValue) =
      (.invalid .nilValue, .panicked (.invalidUnmarshalError .nilValue)) ∧
    ∃ msg, readJSON sampleCodec sampleTable (utf8 "\x7b\"A\":") (.invalid .nilValue) =
      (.invalid .nilValue, .returned (some (.errorString msg))) :=
  ⟨(readJSON_invalid_destination sampleCodec sampleTable (utf8 "\x7b\x7d") .nilValue).2.1
      (Or.inl ⟨[], by simp [IsWs], rfl⟩) (by decide),
    (readJSON_invalid_destination sampleCodec sampleTable (utf8 "\x7b\"A\":") .nilValue).2.2
      (by decide)⟩

/-! ### C5, with well-formed bodies -/

/-- C5 (amended). For a body of at most 250 bytes that is one JSON object,
for which the codec, with unknown fields disallowed, reports the key `C` as
unknown (its error for the object is "json: unknown field", a space and the
quoted key), `readJSON` fails with "body contains unknown key " followed by
the remainder of that message, the space and the quoted key `C`; the
destination holds what the codec stored. -/
theorem readJSON_unknown_field {D : Type} (codec : Codec D) (table : Nat → Bool)
    (body : List Nat) (v : D) (C : String) (hlen : body.length ≤ 250) (hobj : JObject body)
    (hstore : (codec.store true body v).2 =
      some (.errorString ("json: unknown field " ++ Quote table C))) :
    readJSON codec table body (.pointer v) =
      (.pointer (codec.store true body v).1,
        .returned (some (.errorString
          ("body contains unknown key " ++ (" " ++ Quote table C))))) := by
  have hin : (firstDecoder body).readValue.1.input = body := by
    rw [readValue_input, firstDecoder_input, List.take_of_length_le hlen]
  have hd := Decode_first_value codec body (.pointer v) body.length
    (readValue_object body hobj hlen)
  rw [hin, readValue_flag, firstDecoder_flag, List.take_length, List.drop_length] at hd
  have hmsg : ("json: unknown field " : String) ++ Quote table C =
      "json: unknown field" ++ (" " ++ Quote table C) := by
    rw [← String.append_assoc]
    rfl
  rw [hmsg] at hstore
  have herr : ((firstDecoder body).Decode codec (.pointer v)).2 =
      (.pointer (codec.store true body v).1,
        some (.errorString ("json: unknown field" ++ (" " ++ Quote table C)))) := by
    rw [hd]
    simp only [unmarshal]
    rw [← hstore]
  rw [readJSON_of_failed codec table body (.pointer v) _ (by rw [herr]), herr,
    classify_unknown_field]
  rfl

/-- The text `"A":1,"C":2` is the members of a JSON object. -/
theorem sample_unknown_members : JText .members (utf8 "\"A\":1,\"C\":2") :=
  JText.members [] (utf8 "\"A\"") [] [] (utf8 "1") [] (utf8 "\"C\":2")
    (by simp [IsWs]) ⟨[65], .plain 65 [] (by decide) (by decide) (by decide) .nil, rfl⟩
    (by simp [IsWs]) (by simp [IsWs])
    (.number _ ⟨[], [49], [], [], Or.inl rfl, Or.inr ⟨49, [], by decide, by decide,
      by simp [IsDigits], rfl⟩, Or.inl rfl, Or.inl rfl, rfl⟩)
    (by simp [IsWs])
    (JText.member [] (utf8 "\"C\"") [] [] (utf8 "2") [] (by simp [IsWs])
      ⟨[67], .plain 67 [] (by decide) (by decide) (by decide) .nil, rfl⟩ (by simp [IsWs])
      (by simp [IsWs])
      (.number _ ⟨[], [50], [], [], Or.inl rfl, Or.inr ⟨50, [], by decide, by decide,
        by simp [IsDigits], rfl⟩, Or.inl rfl, Or.inl rfl, rfl⟩)
      (by simp [IsWs]))

/-- A body for C5: the key `C` of `{"A":1,"C":2}` is named, in quotes, and the
field `A` is stored. -/
theorem readJSON_unknown_field_witness :
    readJSON sampleCodec sampleTable (utf8 "\x7b\"A\":1,\"C\":2\x7d") (.pointer ⟨0, ""⟩) =
      (.pointer ⟨1, ""⟩, .returned (some (.errorString "body contains unknown key  \"C\""))) :=
  readJSON_unknown_field sampleCodec sampleTable (utf8 "\x7b\"A\":1,\"C\":2\x7d") ⟨0, ""⟩ "C"
    (by decide) (Or.inr ⟨_, sample_unknown_members, rfl⟩) (by decide)

end Helpers
